import Mathlib

/-!
# SEARChain verification core: shallow embedding

A shallow embedding of the three core SEARChain contracts
(`Registry.sol`, `ProductionOracle.sol`, `Treasury.sol`) and proofs about
their specified properties.

Modelling conventions:
* Addresses, `bytes32` values, `uint64`/`uint256` quantities are `Nat`.
  Solidity 0.8 arithmetic reverts on overflow for the widths involved, and
  every quantity mutated here only grows by bounded increments or shrinks,
  so plain `Nat` arithmetic agrees with the source except where a narrowing
  cast occurs; the one narrowing cast in the source, `uint16(1 << idx)`,
  is modelled explicitly as `(1 <<< idx) % 65536`, and `uint8(i)` in
  `getVerifierIndex` as `i % 256`.
* `keccak256(abi.encodePacked(...))` is used by the source only as an
  injective key derivation.  It is modelled by the packed tuple itself:
  a claim key is the pair `(producerId, hourId)` (the oracle address and
  the `0x01` tag are fixed for the single production oracle modelled), and
  a value hash is the pair `(energyWh, evidenceRoot)`.
* ECDSA recovery (`_validateSignature`) returns the recovered signer; the
  embedding passes the recovered signer directly and keeps the only
  observable check, `recovered == address(0)` (`InvalidSignature`).
* A transaction is `World → Except Err World`; `Except.error` is a revert
  and, as on the EVM, discards every intermediate write of the transaction,
  including writes performed through calls into other contracts.
  `txRun` gives the post-transaction state (pre-state on revert).
* `onlyOwner` / `onlyAuthorizedOracle` modifiers are pure access control on
  `msg.sender`; no claim mentions callers, so the embedding models the
  authorized-caller case and omits the sender argument.
* Events are accumulated in `World.events`; token mints in `World.minted`.
-/

namespace SEARChain

/-- Pointwise map update used for every Solidity `mapping`. -/
def updFn {α β : Type} [DecidableEq α] (f : α → β) (k : α) (v : β) : α → β :=
  fun x => if x = k then v else f x

theorem updFn_same {α β : Type} [DecidableEq α] (f : α → β) (k : α) (v : β) :
    updFn f k v k = v := by
  simp [updFn]

theorem updFn_other {α β : Type} [DecidableEq α] (f : α → β) (k : α) (v : β)
    (x : α) (h : x ≠ k) : updFn f k v x = f x := by
  simp [updFn, h]

theorem updFn_self {α β : Type} [DecidableEq α] (f : α → β) (k : α) :
    updFn f k (f k) = f := by
  funext x
  by_cases h : x = k <;> simp [updFn, h]

/-- Iterations of the `Treasury._popcount` loop, structurally recursive on
an iteration bound so that concrete values reduce in the kernel. -/
def popcountFuel : Nat → Nat → Nat
  | _, 0 => 0
  | b, fuel + 1 => if b = 0 then 0 else b % 2 + popcountFuel (b / 2) fuel

/-- `Treasury._popcount`: `while (bitmap != 0) { count += bitmap & 1; bitmap >>= 1; }`.
The loop halves `b` each iteration, so `b` itself bounds the iteration count. -/
def popcount (b : Nat) : Nat := popcountFuel b b

theorem popcountFuel_congr :
    ∀ (fuel b fuel' : Nat), b ≤ fuel → b ≤ fuel' →
      popcountFuel b fuel = popcountFuel b fuel' := by
  intro fuel
  induction fuel with
  | zero =>
    intro b fuel' hb _
    have : b = 0 := Nat.le_zero.mp hb
    subst this
    cases fuel' <;> simp [popcountFuel]
  | succ fuel ih =>
    intro b fuel' hb hb'
    by_cases h0 : b = 0
    · subst h0
      cases fuel' <;> simp [popcountFuel]
    · have hbpos : 0 < b := Nat.pos_of_ne_zero h0
      cases fuel' with
      | zero => exact absurd hb' (by omega)
      | succ fuel' =>
        simp only [popcountFuel, if_neg h0]
        congr 1
        exact ih (b / 2) fuel' (by omega) (by omega)

/-- Extract the revert reason of a transaction result. -/
def errOf {ε α : Type} : Except ε α → Option ε
  | .error e => some e
  | .ok _ => none

-- ============ Data model ============

/-- `Treasury.FaultType`. -/
inductive FaultType where
  | wrongValue
  | invalidSignatureFault
  | duplicateSubmission
  | lateSubmission
  | malformedClaim
deriving DecidableEq, Repr

/-- The typed revert reasons of the three contracts (only those reachable
from the modelled operations). -/
inductive Err where
  | ClaimAlreadyFinalized (claimKey : Nat × Nat)
  | ClaimDeadlineNotReached (claimKey : Nat × Nat) (deadline : Nat)
  | ClaimDeadlinePassed (claimKey : Nat × Nat)
  | DuplicateSubmission (claimKey : Nat × Nat) (verifier : Nat)
  | InvalidSignature
  | ProducerNotRegistered (producerId : Nat)
  | ProducerNotFound (producerId : Nat)
  | VerifierNotActive (verifier : Nat)
  | VerifierNotInSnapshot (verifier : Nat) (snapshotId : Nat)
  | ClaimNotDisputed (claimKey : Nat × Nat)
  | EnergyExceedsMaxSubmitted (energyWh maxSubmitted : Nat)
  | EvidenceRootNotSubmitted (evidenceRoot : Nat)
  | SnapshotAlreadyExists (claimKey : Nat × Nat)
  | NoActiveVerifiers
  | InsufficientRewardPool (required available : Nat)
  | FaultThresholdNotReached (verifier faults threshold : Nat)
  | AlreadySlashed (verifier : Nat)
  | VerifierAlreadyActive (verifier : Nat)
  | VerifierNotAllowlisted (verifier : Nat)
  | InsufficientStake (required actual : Nat)
deriving DecidableEq, Repr

/-- Events emitted by the modelled operations. -/
inductive Event where
  | ProductionSubmitted (claimKey : Nat × Nat) (verifier energyWh : Nat)
      (valueHash : Nat × Nat)
  | ProductionFinalized (claimKey : Nat × Nat)
      (producerId hourId energyWh evidenceRoot : Nat)
  | ClaimDisputed (claimKey : Nat × Nat) (producerId hourId : Nat)
      (reason : String)
  | ForceFinalized (claimKey : Nat × Nat) (energyWh : Nat)
  | SnapshotCreated (claimKey : Nat × Nat) (snapshotId count : Nat)
  | RewardsDistributed (winnerBitmap snapshotId total : Nat)
  | FaultRecorded (verifier : Nat) (faultType : FaultType) (totalFaults : Nat)
  | Slashed (verifier amount : Nat)
  | VerifierActivated (verifier : Nat)
deriving DecidableEq, Repr

/-- `Registry.Verifier`. -/
structure VerifierRec where
  stake : Nat
  faults : Nat
  active : Bool
  allowlisted : Bool
deriving DecidableEq, Repr

/-- `Registry.Producer`.  Only the field read by the modelled operations
(`payoutAddr`, the mint recipient) is kept; existence of the record models
`_producers[producerId].owner != address(0)`. -/
structure ProducerRec where
  payoutAddr : Nat
deriving DecidableEq, Repr

/-- `Registry.Snapshot`. -/
structure SnapshotRec where
  verifiers : List Nat
  timestamp : Nat
deriving DecidableEq, Repr

/-- `ProductionOracle.ClaimBucket`. -/
structure ClaimBucket where
  deadline : Nat
  snapshotId : Nat
  submissionCount : Nat
  finalized : Bool
  disputed : Bool
  verifiedEnergyWh : Nat
  maxSubmittedEnergyWh : Nat
  winningValueHash : Nat × Nat
  evidenceRoot : Nat
  allSubmittersBitmap : Nat
  winningVerifierBitmap : Nat
deriving DecidableEq, Repr

/-- Zero-initialised bucket (Solidity mapping default). -/
def ClaimBucket.empty : ClaimBucket :=
  ⟨0, 0, 0, false, false, 0, 0, (0, 0), 0, 0, 0⟩

/-- `ProductionOracle.ValueSubmission`. -/
structure ValueSubmission where
  count : Nat
  verifierBitmap : Nat
  evidenceRoot : Nat
  energyWh : Nat
deriving DecidableEq, Repr

def ValueSubmission.empty : ValueSubmission := ⟨0, 0, 0, 0⟩

/-- `Registry.sol` storage (the fields the modelled operations touch). -/
structure RegistryState where
  verifiers : Nat → VerifierRec
  activeVerifiers : List Nat
  activeVerifierIndex : Nat → Nat
  producers : Nat → Option ProducerRec
  claimKeyToSnapshotId : (Nat × Nat) → Nat
  snapshots : Nat → SnapshotRec
  nextSnapshotId : Nat
  minStake : Nat
  permissionedMode : Bool

/-- `ProductionOracle.sol` storage. -/
structure OracleState where
  claimWindow : Nat
  quorumBps : Nat
  baselineMode : Bool
  singleVerifierOverride : Nat
  buckets : (Nat × Nat) → ClaimBucket
  valueSubs : (Nat × Nat) → (Nat × Nat) → ValueSubmission
  hasSubmitted : (Nat × Nat) → Nat → Bool
  submittedEvidenceRoots : (Nat × Nat) → Nat → Bool
  claimValueHashes : (Nat × Nat) → List (Nat × Nat)

/-- `Treasury.sol` storage. -/
structure TreasuryState where
  rewardPool : Nat
  rewardPerWhWei : Nat
  slashBps : Nat
  faultThreshold : Nat
  slashingDisabled : Bool
  verifierFaults : Nat → Nat
  pendingRewards : Nat → Nat
  isSlashed : Nat → Bool

/-- The serialized transactional substrate: the three contracts' storage,
the block timestamp, the HCN mint log and the event log. -/
structure World where
  reg : RegistryState
  orc : OracleState
  trs : TreasuryState
  now : Nat
  minted : List (Nat × Nat × Nat × (Nat × Nat))
  events : List Event

/-- Run a transaction: on revert the pre-state is observed (EVM rollback). -/
def txRun (f : World → Except Err World) (w : World) : World :=
  match f w with
  | .ok w' => w'
  | .error _ => w

-- ============ Registry ============

namespace Registry

/-- Inner loop of `Registry._sortAddresses` for a fixed outer index `i`:
`for j in i+1..n-1: if (a[i] > a[j]) swap(a[i], a[j])`.  Given the current
value `x` at slot `i` and the tail `a[i+1..]`, it returns the final value
at slot `i` together with the final tail. -/
def exchStep : Nat → List Nat → Nat × List Nat
  | x, [] => (x, [])
  | x, y :: ys =>
    if y < x then
      let p := exchStep y ys
      (p.1, x :: p.2)
    else
      let p := exchStep x ys
      (p.1, y :: p.2)

theorem exchStep_snd_length (x : Nat) (l : List Nat) :
    (exchStep x l).2.length = l.length := by
  induction l generalizing x with
  | nil => simp [exchStep]
  | cons y ys ih =>
    by_cases h : y < x <;> simp [exchStep, h, ih]

/-- Outer iterations of the exchange sort, structurally recursive on the
iteration bound (the list length) so that concrete values reduce in the
kernel. -/
def sortAddressesFuel : Nat → List Nat → List Nat
  | 0, _ => []
  | _, [] => []
  | fuel + 1, x :: xs =>
    (exchStep x xs).1 :: sortAddressesFuel fuel (exchStep x xs).2

/-- `Registry._sortAddresses`: the exchange sort
`for i: for j > i: if (a[i] > a[j]) swap` expressed structurally — each
outer iteration is one `exchStep` fixing the next slot, and there are
exactly `length` outer iterations. -/
def sortAddresses (l : List Nat) : List Nat := sortAddressesFuel l.length l

theorem sortAddresses_nil : sortAddresses [] = [] := rfl

theorem sortAddresses_cons (x : Nat) (xs : List Nat) :
    sortAddresses (x :: xs) =
      (exchStep x xs).1 :: sortAddresses (exchStep x xs).2 := by
  show sortAddressesFuel (xs.length + 1) (x :: xs) =
    (exchStep x xs).1 :: sortAddressesFuel (exchStep x xs).2.length (exchStep x xs).2
  rw [sortAddressesFuel, exchStep_snd_length]

/-- `Registry.createSnapshot` (caller is an authorized oracle). -/
def createSnapshot (w : World) (claimKey : Nat × Nat) :
    Except Err (World × Nat) :=
  if w.reg.claimKeyToSnapshotId claimKey ≠ 0 then
    .error (.SnapshotAlreadyExists claimKey)
  else if w.reg.activeVerifiers = [] then
    .error .NoActiveVerifiers
  else
    let sid := w.reg.nextSnapshotId
    let sorted := sortAddresses w.reg.activeVerifiers
    .ok ({ w with
            reg := { w.reg with
                      nextSnapshotId := sid + 1
                      snapshots := updFn w.reg.snapshots sid ⟨sorted, w.now⟩
                      claimKeyToSnapshotId :=
                        updFn w.reg.claimKeyToSnapshotId claimKey sid }
            events := w.events ++ [.SnapshotCreated claimKey sid sorted.length] },
          sid)

/-- `Registry.getSnapshotCount`. -/
def getSnapshotCount (w : World) (snapshotId : Nat) : Nat :=
  (w.reg.snapshots snapshotId).verifiers.length

/-- `Registry.getSnapshotVerifiers`. -/
def getSnapshotVerifiers (w : World) (snapshotId : Nat) : List Nat :=
  (w.reg.snapshots snapshotId).verifiers

/-- The linear scan of `Registry.getVerifierIndex`: index of the first
occurrence of `v`, if any. -/
def scanIndex (v : Nat) : List Nat → Option Nat
  | [] => none
  | a :: rest => if a = v then some 0 else (scanIndex v rest).map (· + 1)

/-- `Registry.getVerifierIndex`; the result is returned through a `uint8`
cast (`% 256`). -/
def getVerifierIndex (w : World) (snapshotId : Nat) (v : Nat) :
    Except Err Nat :=
  match scanIndex v (w.reg.snapshots snapshotId).verifiers with
  | some i => .ok (i % 256)
  | none => .error (.VerifierNotInSnapshot v snapshotId)

/-- `Registry.reduceStake`: saturating decrease, no authorization, no
revert path. -/
def reduceStake (w : World) (v amount : Nat) : World :=
  let rec_ := w.reg.verifiers v
  let newStake := if rec_.stake ≥ amount then rec_.stake - amount else 0
  { w with reg := { w.reg with
      verifiers := updFn w.reg.verifiers v { rec_ with stake := newStake } } }

/-- `Registry.incrementFaults`.  Present in the source with the comment
"Called by Treasury contract", but no modelled operation (and no operation
in the source's Treasury) invokes it. -/
def incrementFaults (w : World) (v : Nat) : World :=
  let rec_ := w.reg.verifiers v
  { w with reg := { w.reg with
      verifiers := updFn w.reg.verifiers v { rec_ with faults := rec_.faults + 1 } } }

/-- `Registry.activateVerifier` (caller `v`).  Note: no cap on the size of
the active set. -/
def activateVerifier (w : World) (v : Nat) : Except Err World :=
  let rec_ := w.reg.verifiers v
  if rec_.active then
    .error (.VerifierAlreadyActive v)
  else if w.reg.permissionedMode ∧ ¬rec_.allowlisted then
    .error (.VerifierNotAllowlisted v)
  else if rec_.stake < w.reg.minStake then
    .error (.InsufficientStake w.reg.minStake rec_.stake)
  else
    .ok { w with
            reg := { w.reg with
              verifiers := updFn w.reg.verifiers v { rec_ with active := true }
              activeVerifiers := w.reg.activeVerifiers ++ [v]
              activeVerifierIndex :=
                updFn w.reg.activeVerifierIndex v
                  (w.reg.activeVerifiers.length + 1) }
            events := w.events ++ [.VerifierActivated v] }

end Registry

-- ============ Treasury ============

namespace Treasury

/-- `Treasury._slash`: mark slashed, compute `stake * slashBps / 10000`,
reduce the Registry stake, credit the pool. -/
def slashCore (w : World) (v : Nat) : World :=
  let w1 := { w with trs := { w.trs with isSlashed := updFn w.trs.isSlashed v true } }
  let stake := (w1.reg.verifiers v).stake
  let slashAmount := stake * w1.trs.slashBps / 10000
  if slashAmount > 0 then
    let w2 := Registry.reduceStake w1 v slashAmount
    { w2 with
        trs := { w2.trs with rewardPool := w2.trs.rewardPool + slashAmount }
        events := w2.events ++ [.Slashed v slashAmount] }
  else
    { w1 with events := w1.events ++ [.Slashed v slashAmount] }

/-- `Treasury.recordFault` (caller is an authorized oracle). -/
def recordFault (w : World) (v : Nat) (faultType : FaultType) : World :=
  let newFaults := w.trs.verifierFaults v + 1
  let w1 := { w with
                trs := { w.trs with
                  verifierFaults := updFn w.trs.verifierFaults v newFaults }
                events := w.events ++ [.FaultRecorded v faultType newFaults] }
  if ¬w1.trs.slashingDisabled ∧ newFaults ≥ w1.trs.faultThreshold ∧
      ¬w1.trs.isSlashed v then
    slashCore w1 v
  else
    w1

/-- The loop of `Treasury.recordFaults`:
`for (i = 0; i < verifiers.length && i < 16; i++)`, carrying the current
index. -/
def recordFaultsLoop (bitmap : Nat) (faultType : FaultType) :
    List Nat → Nat → World → World
  | [], _, w => w
  | a :: rest, i, w =>
    if i < 16 then
      if bitmap &&& (1 <<< i) ≠ 0 then
        recordFaultsLoop bitmap faultType rest (i + 1) (recordFault w a faultType)
      else
        recordFaultsLoop bitmap faultType rest (i + 1) w
    else
      w

/-- `Treasury.recordFaults` (caller is an authorized oracle).  The body of
the source loop (increment, emit, conditional auto-slash) is exactly
`recordFault` and is shared here. -/
def recordFaults (w : World) (loserBitmap snapshotId : Nat)
    (faultType : FaultType) : World :=
  if loserBitmap = 0 then
    w
  else
    recordFaultsLoop loserBitmap faultType
      (Registry.getSnapshotVerifiers w snapshotId) 0 w

/-- `Treasury.slash` (manual, external). -/
def slash (w : World) (v : Nat) : Except Err World :=
  if w.trs.verifierFaults v < w.trs.faultThreshold then
    .error (.FaultThresholdNotReached v (w.trs.verifierFaults v) w.trs.faultThreshold)
  else if w.trs.isSlashed v then
    .error (.AlreadySlashed v)
  else if w.trs.slashingDisabled then
    .ok w
  else
    .ok (slashCore w v)

/-- The loop of `Treasury.distributeRewards`: accumulate per-winner credits
into the pending-rewards map and sum the distributed total. -/
def distLoop (bitmap per : Nat) :
    List Nat → Nat → (Nat → Nat) → Nat → ((Nat → Nat) × Nat)
  | [], _, pr, d => (pr, d)
  | a :: rest, i, pr, d =>
    if i < 16 then
      if bitmap &&& (1 <<< i) ≠ 0 then
        distLoop bitmap per rest (i + 1) (updFn pr a (pr a + per)) (d + per)
      else
        distLoop bitmap per rest (i + 1) pr d
    else
      (pr, d)

/-- `Treasury.distributeRewards` (caller is an authorized oracle). -/
def distributeRewards (w : World) (winnerBitmap snapshotId energyWh : Nat) :
    Except Err World :=
  let winnerCount := popcount winnerBitmap
  if winnerCount = 0 then
    .ok { w with events := w.events ++ [.RewardsDistributed winnerBitmap snapshotId 0] }
  else
    let totalReward := energyWh * w.trs.rewardPerWhWei
    if totalReward = 0 then
      .ok { w with events := w.events ++ [.RewardsDistributed winnerBitmap snapshotId 0] }
    else if w.trs.rewardPool < totalReward then
      .error (.InsufficientRewardPool totalReward w.trs.rewardPool)
    else
      let rewardPerWinner := totalReward / winnerCount
      let vs := Registry.getSnapshotVerifiers w snapshotId
      let res := distLoop winnerBitmap rewardPerWinner vs 0 w.trs.pendingRewards 0
      .ok { w with
              trs := { w.trs with
                pendingRewards := res.1
                rewardPool := w.trs.rewardPool - res.2 }
              events := w.events ++
                [.RewardsDistributed winnerBitmap snapshotId res.2] }

/-- `Treasury.setSlashBps` (owner).  No range validation in the source. -/
def setSlashBps (w : World) (bps : Nat) : World :=
  { w with trs := { w.trs with slashBps := bps } }

end Treasury

-- ============ ProductionOracle ============

namespace Oracle

/-- The claim key `keccak256(0x01 ‖ address(this) ‖ producerId ‖ hourId)`,
modelled injectively as the pair of the two varying components. -/
def getClaimKey (producerId hourId : Nat) : Nat × Nat :=
  (producerId, hourId)

/-- `ProductionOracle._finalizeWithValue`. -/
def finalizeWithValue (w : World) (claimKey : Nat × Nat)
    (producerId hourId energyWh evidenceRoot winnerBitmap : Nat) :
    Except Err World :=
  let bucket := w.orc.buckets claimKey
  let bucket1 := { bucket with
                    finalized := true
                    disputed := false
                    verifiedEnergyWh := energyWh
                    evidenceRoot := evidenceRoot
                    winningValueHash := (energyWh, evidenceRoot)
                    winningVerifierBitmap := winnerBitmap }
  let w1 := { w with orc := { w.orc with
                buckets := updFn w.orc.buckets claimKey bucket1 } }
  -- getProducer reads registry storage, which the bucket write left untouched
  match w.reg.producers producerId with
  | none => .error (.ProducerNotFound producerId)
  | some producer =>
    let w2 := { w1 with
                  minted := w1.minted ++
                    [(producer.payoutAddr, hourId, energyWh, claimKey)] }
    match Treasury.distributeRewards w2 winnerBitmap bucket1.snapshotId energyWh with
    | .error e => .error e
    | .ok w3 =>
      .ok { w3 with events := w3.events ++
              [.ProductionFinalized claimKey producerId hourId energyWh evidenceRoot] }

/-- `ProductionOracle.submitProduction`.  `verifier` is the signer
recovered by `_validateSignature` (zero means recovery failed). -/
def submitProduction (w : World) (producerId hourId energyWh evidenceRoot : Nat)
    (verifier : Nat) : Except Err World :=
  let claimKey := getClaimKey producerId hourId
  let bucket := w.orc.buckets claimKey
  if bucket.finalized then
    .error (.ClaimAlreadyFinalized claimKey)
  else if (w.reg.producers producerId).isNone then
    .error (.ProducerNotRegistered producerId)
  else if verifier = 0 then
    .error .InvalidSignature
  else if ¬(w.reg.verifiers verifier).active then
    .error (.VerifierNotActive verifier)
  else
    -- First submission creates snapshot and sets deadline
    let step : Except Err (World × ClaimBucket) :=
      if bucket.snapshotId = 0 then
        match Registry.createSnapshot w claimKey with
        | .error e => .error e
        | .ok (w', sid) =>
          .ok (w', { bucket with snapshotId := sid, deadline := w'.now + w'.orc.claimWindow })
      else
        .ok (w, bucket)
    match step with
    | .error e => .error e
    | .ok (w1, bucket1) =>
      if w1.now > bucket1.deadline then
        -- fault recorded, then revert: the revert rolls the fault back
        let _w2 := Treasury.recordFault w1 verifier .lateSubmission
        .error (.ClaimDeadlinePassed claimKey)
      else
        match Registry.getVerifierIndex w1 bucket1.snapshotId verifier with
        | .error _ => .error (.VerifierNotInSnapshot verifier bucket1.snapshotId)
        | .ok verifierIndex =>
          if w1.orc.hasSubmitted claimKey verifier then
            let _w2 := Treasury.recordFault w1 verifier .duplicateSubmission
            .error (.DuplicateSubmission claimKey verifier)
          else
            let bucket2 := { bucket1 with
              allSubmittersBitmap :=
                bucket1.allSubmittersBitmap ||| ((1 <<< verifierIndex) % 65536) }
            let valueHash : Nat × Nat := (energyWh, evidenceRoot)
            let valueSub := w1.orc.valueSubs claimKey valueHash
            let isNew := valueSub.count = 0
            let valueSub1 :=
              if isNew then
                { valueSub with energyWh := energyWh, evidenceRoot := evidenceRoot }
              else valueSub
            let valueSub2 := { valueSub1 with
              count := valueSub1.count + 1
              verifierBitmap :=
                valueSub1.verifierBitmap ||| ((1 <<< verifierIndex) % 65536) }
            let bucket3 := { bucket2 with
              maxSubmittedEnergyWh :=
                if energyWh > bucket2.maxSubmittedEnergyWh then energyWh
                else bucket2.maxSubmittedEnergyWh
              submissionCount := bucket2.submissionCount + 1 }
            let w2 := { w1 with orc := { w1.orc with
              hasSubmitted :=
                updFn w1.orc.hasSubmitted claimKey
                  (updFn (w1.orc.hasSubmitted claimKey) verifier true)
              buckets := updFn w1.orc.buckets claimKey bucket3
              valueSubs :=
                updFn w1.orc.valueSubs claimKey
                  (updFn (w1.orc.valueSubs claimKey) valueHash valueSub2)
              submittedEvidenceRoots :=
                updFn w1.orc.submittedEvidenceRoots claimKey
                  (updFn (w1.orc.submittedEvidenceRoots claimKey) evidenceRoot true)
              claimValueHashes :=
                if isNew then
                  updFn w1.orc.claimValueHashes claimKey
                    (w1.orc.claimValueHashes claimKey ++ [valueHash])
                else w1.orc.claimValueHashes } }
            let w3 := { w2 with events := w2.events ++
              [.ProductionSubmitted claimKey verifier energyWh valueHash] }
            if w3.orc.baselineMode ∧ w3.orc.singleVerifierOverride ≠ 0 ∧
                verifier = w3.orc.singleVerifierOverride then
              finalizeWithValue w3 claimKey producerId hourId energyWh
                evidenceRoot valueSub2.verifierBitmap
            else
              .ok w3

/-- The winner scan of `finalizeProduction`: first-seen value hash with the
strictly greatest count (`valueSub.count > maxCount`). -/
def selectWinner (subs : (Nat × Nat) → ValueSubmission) :
    List (Nat × Nat) → Nat × (Nat × Nat) → Nat × (Nat × Nat)
  | [], acc => acc
  | vh :: rest, acc =>
    if (subs vh).count > acc.1 then
      selectWinner subs rest ((subs vh).count, vh)
    else
      selectWinner subs rest acc

/-- `ProductionOracle.finalizeProduction`. -/
def finalizeProduction (w : World) (producerId hourId : Nat) :
    Except Err World :=
  let claimKey := getClaimKey producerId hourId
  let bucket := w.orc.buckets claimKey
  if bucket.finalized then
    .error (.ClaimAlreadyFinalized claimKey)
  else if bucket.deadline = 0 ∨ w.now ≤ bucket.deadline then
    .error (.ClaimDeadlineNotReached claimKey bucket.deadline)
  else
    let snapshotCount := Registry.getSnapshotCount w bucket.snapshotId
    let quorumRequired := (snapshotCount * w.orc.quorumBps + 9999) / 10000
    let winner :=
      selectWinner (w.orc.valueSubs claimKey) (w.orc.claimValueHashes claimKey)
        (0, (0, 0))
    if winner.1 < quorumRequired then
      .ok { w with
              orc := { w.orc with
                buckets := updFn w.orc.buckets claimKey
                  { bucket with disputed := true, finalized := false } }
              events := w.events ++
                [.ClaimDisputed claimKey producerId hourId "No quorum reached"] }
    else
      let winningSub := w.orc.valueSubs claimKey winner.2
      match finalizeWithValue w claimKey producerId hourId
              winningSub.energyWh winningSub.evidenceRoot
              winningSub.verifierBitmap with
      | .error e => .error e
      | .ok w1 =>
        let allBm := (w1.orc.buckets claimKey).allSubmittersBitmap
        let loserBitmap := (allBm ^^^ winningSub.verifierBitmap) &&& allBm
        if loserBitmap ≠ 0 then
          .ok (Treasury.recordFaults w1 loserBitmap
                (w1.orc.buckets claimKey).snapshotId .wrongValue)
        else
          .ok w1

/-- `ProductionOracle.forceFinalize` (owner). -/
def forceFinalize (w : World) (producerId hourId energyWh evidenceRoot : Nat) :
    Except Err World :=
  let claimKey := getClaimKey producerId hourId
  let bucket := w.orc.buckets claimKey
  if ¬bucket.disputed then
    .error (.ClaimNotDisputed claimKey)
  else if w.now ≤ bucket.deadline then
    .error (.ClaimDeadlineNotReached claimKey bucket.deadline)
  else if energyWh > bucket.maxSubmittedEnergyWh then
    .error (.EnergyExceedsMaxSubmitted energyWh bucket.maxSubmittedEnergyWh)
  else if ¬w.orc.submittedEvidenceRoots claimKey evidenceRoot then
    .error (.EvidenceRootNotSubmitted evidenceRoot)
  else
    let bucket1 := { bucket with
                      finalized := true
                      disputed := false
                      verifiedEnergyWh := energyWh
                      evidenceRoot := evidenceRoot
                      winningVerifierBitmap := 0 }
    let w1 := { w with orc := { w.orc with
                  buckets := updFn w.orc.buckets claimKey bucket1 } }
    match w.reg.producers producerId with
    | none => .error (.ProducerNotFound producerId)
    | some producer =>
      .ok { w1 with
              minted := w1.minted ++
                [(producer.payoutAddr, hourId, energyWh, claimKey)]
              events := w1.events ++
                [.ForceFinalized claimKey energyWh,
                 .ProductionFinalized claimKey producerId hourId energyWh evidenceRoot] }

end Oracle

-- ============ Arithmetic and bitmap lemmas ============

theorem popcount_zero : popcount 0 = 0 := rfl

theorem popcount_pos_eq (b : Nat) (h : b ≠ 0) :
    popcount b = b % 2 + popcount (b / 2) := by
  match b, h with
  | n + 1, _ =>
    show popcountFuel (n + 1) (n + 1) =
      (n + 1) % 2 + popcountFuel ((n + 1) / 2) ((n + 1) / 2)
    rw [popcountFuel, if_neg (Nat.succ_ne_zero n)]
    congr 1
    exact popcountFuel_congr n ((n + 1) / 2) ((n + 1) / 2) (by omega) le_rfl

/-- `popcount b` counts the set bits of `b` below any width bound. -/
theorem popcount_eq_countP_range :
    ∀ (k b : Nat), b < 2 ^ k →
      popcount b = (List.range k).countP (fun i => b.testBit i) := by
  intro k
  induction k with
  | zero =>
    intro b hb
    interval_cases b
    simp [popcount_zero]
  | succ k ih =>
    intro b hb
    by_cases hb0 : b = 0
    · subst hb0
      rw [popcount_zero]
      symm
      rw [List.countP_eq_zero]
      intro a _
      simp [Nat.zero_testBit]
    · rw [popcount_pos_eq b hb0, List.range_succ_eq_map, List.countP_cons,
          List.countP_map]
      have hdiv : b / 2 < 2 ^ k := by
        rw [Nat.div_lt_iff_lt_mul (by omega)]
        calc b < 2 ^ (k + 1) := hb
          _ = 2 ^ k * 2 := by rw [pow_succ]
      have hfun : ((fun i => b.testBit i) ∘ Nat.succ) = fun i => (b / 2).testBit i := by
        funext i
        simp [Function.comp, Nat.testBit_add_one]
      rw [hfun, ← ih (b / 2) hdiv, Nat.testBit_zero]
      have hm : b % 2 < 2 := Nat.mod_lt b (by omega)
      by_cases h1 : b % 2 = 1 <;> simp [h1] <;> omega

/-- The source's bit test `(bitmap & (1 << i)) != 0` is `Nat.testBit`. -/
theorem and_shift_ne_iff (b i : Nat) : b &&& (1 <<< i) ≠ 0 ↔ b.testBit i = true := by
  rw [Nat.shiftLeft_eq, one_mul, Nat.and_two_pow]
  cases h : b.testBit i
  · simp
  · simp [(Nat.two_pow_pos i).ne']

/-- A set bit of a bitmap below `2 ^ k` lies below `k`. -/
theorem testBit_lt_of_lt_two_pow {b k i : Nat} (hb : b < 2 ^ k)
    (h : b.testBit i = true) : i < k := by
  by_contra hik
  have : b < 2 ^ i := lt_of_lt_of_le hb (Nat.pow_le_pow_right (by omega) (by omega))
  rw [Nat.testBit_lt_two_pow this] at h
  exact Bool.false_ne_true h

-- ============ Sorting: `Registry._sortAddresses` is the ascending sort ============

namespace Registry

theorem exchStep_perm (x : Nat) (l : List Nat) :
    List.Perm (x :: l) ((exchStep x l).1 :: (exchStep x l).2) := by
  induction l generalizing x with
  | nil => simp [exchStep]
  | cons y ys ih =>
    by_cases h : y < x
    · simp only [exchStep, if_pos h]
      exact ((ih y).cons x).trans (List.Perm.swap _ _ _)
    · simp only [exchStep, if_neg h]
      exact (List.Perm.swap _ _ _).trans (((ih x).cons y).trans (List.Perm.swap _ _ _))

theorem exchStep_fst_le (x : Nat) (l : List Nat) :
    (exchStep x l).1 ≤ x ∧ ∀ z ∈ l, (exchStep x l).1 ≤ z := by
  induction l generalizing x with
  | nil => simp [exchStep]
  | cons y ys ih =>
    by_cases h : y < x
    · simp only [exchStep, if_pos h]
      refine ⟨le_trans (ih y).1 (le_of_lt h), ?_⟩
      intro z hz
      rcases List.mem_cons.mp hz with h0 | hz'
      · rw [h0]; exact (ih y).1
      · exact (ih y).2 z hz'
    · simp only [exchStep, if_neg h]
      refine ⟨(ih x).1, ?_⟩
      intro z hz
      rcases List.mem_cons.mp hz with h0 | hz'
      · rw [h0]; exact le_trans (ih x).1 (le_of_not_lt h)
      · exact (ih x).2 z hz'

theorem exchStep_fst_le_snd (x : Nat) (l : List Nat) :
    ∀ z ∈ (exchStep x l).2, (exchStep x l).1 ≤ z := by
  intro z hz
  have hmem : z ∈ x :: l := (exchStep_perm x l).mem_iff.mpr (List.mem_cons_of_mem _ hz)
  rcases List.mem_cons.mp hmem with rfl | hz'
  · exact (exchStep_fst_le z l).1
  · exact (exchStep_fst_le x l).2 z hz'

theorem sortAddresses_perm_aux :
    ∀ (n : Nat) (l : List Nat), l.length ≤ n →
      List.Perm (sortAddresses l) l := by
  intro n
  induction n with
  | zero =>
    intro l hl
    rw [List.length_eq_zero.mp (Nat.le_zero.mp hl)]
    simp [sortAddresses_nil]
  | succ n ih =>
    intro l hl
    match l with
    | [] => simp [sortAddresses_nil]
    | x :: xs =>
      rw [sortAddresses_cons]
      have hlen : (exchStep x xs).2.length ≤ n := by
        rw [exchStep_snd_length]
        simpa using hl
      exact ((ih _ hlen).cons _).trans (exchStep_perm x xs).symm

theorem sortAddresses_perm (l : List Nat) : List.Perm (sortAddresses l) l :=
  sortAddresses_perm_aux l.length l le_rfl

theorem sortAddresses_sorted_aux :
    ∀ (n : Nat) (l : List Nat), l.length ≤ n →
      List.Sorted (· ≤ ·) (sortAddresses l) := by
  intro n
  induction n with
  | zero =>
    intro l hl
    rw [List.length_eq_zero.mp (Nat.le_zero.mp hl)]
    simp [sortAddresses_nil]
  | succ n ih =>
    intro l hl
    match l with
    | [] => simp [sortAddresses_nil]
    | x :: xs =>
      rw [sortAddresses_cons]
      have hlen : (exchStep x xs).2.length ≤ n := by
        rw [exchStep_snd_length]
        simpa using hl
      rw [List.sorted_cons]
      refine ⟨?_, ih _ hlen⟩
      intro b hb
      have : b ∈ (exchStep x xs).2 := (sortAddresses_perm _).mem_iff.mp hb
      exact exchStep_fst_le_snd x xs b this

theorem sortAddresses_sorted (l : List Nat) :
    List.Sorted (· ≤ ·) (sortAddresses l) :=
  sortAddresses_sorted_aux l.length l le_rfl

/-- The source's exchange sort agrees with the textbook ascending sort. -/
theorem sortAddresses_eq_insertionSort (l : List Nat) :
    sortAddresses l = List.insertionSort (· ≤ ·) l :=
  List.eq_of_perm_of_sorted
    ((sortAddresses_perm l).trans (List.perm_insertionSort _ l).symm)
    (sortAddresses_sorted l) (List.sorted_insertionSort _ l)

theorem scanIndex_not_mem (v : Nat) (l : List Nat) (h : v ∉ l) :
    scanIndex v l = none := by
  induction l with
  | nil => rfl
  | cons a rest ih =>
    have ha : a ≠ v := fun hav => h (hav ▸ List.mem_cons_self a rest)
    have hrest : v ∉ rest := fun hv => h (List.mem_cons_of_mem a hv)
    simp [scanIndex, ha, ih hrest]

theorem scanIndex_lt_length (v : Nat) :
    ∀ (l : List Nat) (i : Nat), scanIndex v l = some i → i < l.length := by
  intro l
  induction l with
  | nil => intro i h; simp [scanIndex] at h
  | cons a rest ih =>
    intro i h
    by_cases hav : a = v
    · simp [scanIndex, hav] at h
      simp only [List.length_cons]
      omega
    · simp only [scanIndex, if_neg hav, Option.map_eq_some'] at h
      obtain ⟨j, hj, rfl⟩ := h
      have := ih j hj
      simp only [List.length_cons]
      omega

/-- On a strictly sorted list, the first-match scan finds `v` at its rank:
the number of elements smaller than `v`. -/
theorem scanIndex_sorted (v : Nat) :
    ∀ (l : List Nat), List.Sorted (· < ·) l → v ∈ l →
      scanIndex v l = some (l.countP (fun u => decide (u < v))) := by
  intro l
  induction l with
  | nil => intro _ hv; simp at hv
  | cons a rest ih =>
    intro hs hv
    rw [List.sorted_cons] at hs
    by_cases hav : a = v
    · subst hav
      have hzero : rest.countP (fun u => decide (u < a)) = 0 := by
        rw [List.countP_eq_zero]
        intro u hu
        have : a < u := hs.1 u hu
        simp
        omega
      simp [scanIndex, List.countP_cons, hzero]
    · have hvrest : v ∈ rest := by
        rcases List.mem_cons.mp hv with rfl | h
        · exact absurd rfl hav
        · exact h
      have hav' : a < v := hs.1 v hvrest
      simp only [scanIndex, if_neg hav, ih hs.2 hvrest, Option.map_some']
      congr 1
      rw [List.countP_cons]
      simp [hav']

end Registry

-- ============ Treasury lemmas ============

namespace Treasury

theorem slashCore_orc (w : World) (v : Nat) : (slashCore w v).orc = w.orc := by
  simp only [slashCore, Registry.reduceStake]
  split <;> rfl

theorem slashCore_verifierFaults (w : World) (v : Nat) :
    (slashCore w v).trs.verifierFaults = w.trs.verifierFaults := by
  simp only [slashCore, Registry.reduceStake]
  split <;> rfl

theorem slashCore_reg_faults (w : World) (v u : Nat) :
    ((slashCore w v).reg.verifiers u).faults = (w.reg.verifiers u).faults := by
  simp only [slashCore, Registry.reduceStake]
  split
  · by_cases h : u = v <;> simp [updFn, h]
  · rfl

theorem recordFault_verifierFaults_same (w : World) (v : Nat) (ft : FaultType) :
    (recordFault w v ft).trs.verifierFaults v = w.trs.verifierFaults v + 1 := by
  simp only [recordFault]
  split
  · rw [slashCore_verifierFaults]
    simp [updFn]
  · simp [updFn]

theorem recordFault_verifierFaults_other (w : World) (v : Nat) (ft : FaultType)
    (u : Nat) (h : u ≠ v) :
    (recordFault w v ft).trs.verifierFaults u = w.trs.verifierFaults u := by
  simp only [recordFault]
  split
  · rw [slashCore_verifierFaults]
    simp [updFn, h]
  · simp [updFn, h]

theorem recordFault_reg_faults (w : World) (v : Nat) (ft : FaultType) (u : Nat) :
    ((recordFault w v ft).reg.verifiers u).faults = (w.reg.verifiers u).faults := by
  simp only [recordFault]
  split
  · rw [slashCore_reg_faults]
  · rfl

theorem recordFault_orc (w : World) (v : Nat) (ft : FaultType) :
    (recordFault w v ft).orc = w.orc := by
  simp only [recordFault]
  split
  · rw [slashCore_orc]
  · rfl

theorem recordFaultsLoop_orc (bm : Nat) (ft : FaultType) :
    ∀ (vs : List Nat) (i : Nat) (w : World),
      (recordFaultsLoop bm ft vs i w).orc = w.orc := by
  intro vs
  induction vs with
  | nil => intro i w; rfl
  | cons a rest ih =>
    intro i w
    simp only [recordFaultsLoop]
    split
    · split
      · rw [ih, recordFault_orc]
      · rw [ih]
    · rfl

theorem recordFaultsLoop_reg_faults (bm : Nat) (ft : FaultType) :
    ∀ (vs : List Nat) (i : Nat) (w : World) (u : Nat),
      ((recordFaultsLoop bm ft vs i w).reg.verifiers u).faults =
        (w.reg.verifiers u).faults := by
  intro vs
  induction vs with
  | nil => intro i w u; rfl
  | cons a rest ih =>
    intro i w u
    simp only [recordFaultsLoop]
    split
    · split
      · rw [ih, recordFault_reg_faults]
      · rw [ih]
    · rfl

theorem recordFaultsLoop_faults_not_mem (bm : Nat) (ft : FaultType) :
    ∀ (vs : List Nat) (i : Nat) (w : World) (a : Nat), a ∉ vs →
      (recordFaultsLoop bm ft vs i w).trs.verifierFaults a =
        w.trs.verifierFaults a := by
  intro vs
  induction vs with
  | nil => intro i w a _; rfl
  | cons b rest ih =>
    intro i w a ha
    have hb : a ≠ b := fun h => ha (h ▸ List.mem_cons_self b rest)
    have hrest : a ∉ rest := fun h => ha (List.mem_cons_of_mem b h)
    simp only [recordFaultsLoop]
    split
    · split
      · rw [ih _ _ _ hrest, recordFault_verifierFaults_other _ _ _ _ hb]
      · rw [ih _ _ _ hrest]
    · rfl

/-- Each verifier sitting at a set-bit index of the loser bitmap (below the
16-bit cutoff) gains exactly one fault from the `recordFaults` loop. -/
theorem recordFaultsLoop_faults_get (bm : Nat) (ft : FaultType) :
    ∀ (vs : List Nat) (i : Nat) (w : World) (j : Nat) (hj : j < vs.length),
      vs.Nodup → i + j < 16 → bm.testBit (i + j) = true →
      (recordFaultsLoop bm ft vs i w).trs.verifierFaults (vs.get ⟨j, hj⟩) =
        w.trs.verifierFaults (vs.get ⟨j, hj⟩) + 1 := by
  intro vs
  induction vs with
  | nil => intro i w j hj; simp at hj
  | cons a rest ih =>
    intro i w j hj hnd h16 hbit
    have h16i : i < 16 := by omega
    rcases List.nodup_cons.mp hnd with ⟨hna, hndr⟩
    match j with
    | 0 =>
      have hbiti : bm &&& (1 <<< i) ≠ 0 := by
        rw [and_shift_ne_iff]
        simpa using hbit
      simp only [recordFaultsLoop, if_pos h16i, if_pos hbiti, List.get]
      rw [recordFaultsLoop_faults_not_mem bm ft rest (i + 1) _ a hna,
          recordFault_verifierFaults_same]
    | j + 1 =>
      have hjr : j < rest.length := by simpa using hj
      have htarget : (a :: rest).get ⟨j + 1, hj⟩ = rest.get ⟨j, hjr⟩ := rfl
      have hne : rest.get ⟨j, hjr⟩ ≠ a := by
        intro h
        exact hna (h ▸ rest.get_mem j hjr)
      rw [htarget]
      simp only [recordFaultsLoop, if_pos h16i]
      split
      · rw [ih (i + 1) _ j hjr hndr (by omega)
              (by rw [show i + 1 + j = i + (j + 1) by omega]; exact hbit),
            recordFault_verifierFaults_other _ _ _ _ hne]
      · rw [ih (i + 1) _ j hjr hndr (by omega)
              (by rw [show i + 1 + j = i + (j + 1) by omega]; exact hbit)]

theorem distLoop_snd (bm per : Nat) :
    ∀ (vs : List Nat) (i : Nat) (pr : Nat → Nat) (d : Nat),
      (distLoop bm per vs i pr d).2 =
        d + per * ((List.range' i vs.length).countP
          (fun j => decide (j < 16) && bm.testBit j)) := by
  intro vs
  induction vs with
  | nil => intro i pr d; simp [distLoop]
  | cons a rest ih =>
    intro i pr d
    simp only [distLoop, List.length_cons, List.range'_succ]
    by_cases h16 : i < 16
    · rw [if_pos h16]
      by_cases hbit : bm &&& (1 <<< i) ≠ 0
      · have hb : bm.testBit i = true := (and_shift_ne_iff bm i).mp hbit
        rw [if_pos hbit, ih, List.countP_cons]
        simp [h16, hb]
        ring
      · have hb : bm.testBit i = false := by
          rcases Bool.eq_false_or_eq_true (bm.testBit i) with h | h
          · exact absurd ((and_shift_ne_iff bm i).mpr h) hbit
          · exact h
        rw [if_neg hbit, ih, List.countP_cons]
        simp [hb]
    · rw [if_neg h16]
      have hz : (List.range' i (rest.length + 1)).countP
          (fun j => decide (j < 16) && bm.testBit j) = 0 := by
        rw [List.countP_eq_zero]
        intro j hjm
        have : i ≤ j := (List.mem_range'_1.mp hjm).1
        have : ¬j < 16 := by omega
        simp [this]
      rw [← List.range'_succ, hz]
      simp

theorem distLoop_fst_not_mem (bm per : Nat) :
    ∀ (vs : List Nat) (i : Nat) (pr : Nat → Nat) (d : Nat) (a : Nat), a ∉ vs →
      (distLoop bm per vs i pr d).1 a = pr a := by
  intro vs
  induction vs with
  | nil => intro i pr d a _; rfl
  | cons b rest ih =>
    intro i pr d a ha
    have hb : a ≠ b := fun h => ha (h ▸ List.mem_cons_self b rest)
    have hrest : a ∉ rest := fun h => ha (List.mem_cons_of_mem b h)
    simp only [distLoop]
    split
    · split
      · rw [ih _ _ _ _ hrest, updFn_other _ _ _ _ hb]
      · rw [ih _ _ _ _ hrest]
    · rfl

/-- Each verifier sitting at a set-bit index of the winner bitmap (below the
16-bit cutoff) gains exactly one per-winner credit from the loop. -/
theorem distLoop_fst_get (bm per : Nat) :
    ∀ (vs : List Nat) (i : Nat) (pr : Nat → Nat) (d : Nat) (j : Nat)
      (hj : j < vs.length),
      vs.Nodup → i + j < 16 → bm.testBit (i + j) = true →
      (distLoop bm per vs i pr d).1 (vs.get ⟨j, hj⟩) =
        pr (vs.get ⟨j, hj⟩) + per := by
  intro vs
  induction vs with
  | nil => intro i pr d j hj; simp at hj
  | cons a rest ih =>
    intro i pr d j hj hnd h16 hbit
    have h16i : i < 16 := by omega
    rcases List.nodup_cons.mp hnd with ⟨hna, hndr⟩
    match j with
    | 0 =>
      have hbiti : bm &&& (1 <<< i) ≠ 0 := by
        rw [and_shift_ne_iff]
        simpa using hbit
      simp only [distLoop, if_pos h16i, if_pos hbiti, List.get]
      rw [distLoop_fst_not_mem bm per rest (i + 1) _ _ a hna, updFn_same]
    | j + 1 =>
      have hjr : j < rest.length := by simpa using hj
      have htarget : (a :: rest).get ⟨j + 1, hj⟩ = rest.get ⟨j, hjr⟩ := rfl
      have hne : rest.get ⟨j, hjr⟩ ≠ a := by
        intro h
        exact hna (h ▸ rest.get_mem j hjr)
      rw [htarget]
      simp only [distLoop, if_pos h16i]
      split
      · rw [ih (i + 1) _ _ j hjr hndr (by omega)
              (by rw [show i + 1 + j = i + (j + 1) by omega]; exact hbit),
            updFn_other _ _ _ _ hne]
      · rw [ih (i + 1) _ _ j hjr hndr (by omega)
              (by rw [show i + 1 + j = i + (j + 1) by omega]; exact hbit)]

/-- Under the bitmap-fits hypothesis, the loop total is per-winner times
the popcount of the bitmap. -/
theorem distLoop_snd_popcount (bm per : Nat) (vs : List Nat)
    (pr : Nat → Nat) (hbm : bm < 2 ^ min vs.length 16) :
    (distLoop bm per vs 0 pr 0).2 = per * popcount bm := by
  rw [distLoop_snd]
  have hlen : bm < 2 ^ vs.length := by
    exact lt_of_lt_of_le hbm (Nat.pow_le_pow_right (by omega) (by omega))
  have hcong : (List.range' 0 vs.length).countP
      (fun j => decide (j < 16) && bm.testBit j) =
      (List.range' 0 vs.length).countP (fun j => bm.testBit j) := by
    apply List.countP_congr
    intro j _
    constructor
    · intro h
      exact (Bool.and_eq_true _ _ |>.mp h).2
    · intro h
      have : j < 16 := by
        have := testBit_lt_of_lt_two_pow hbm h
        omega
      simp [this, h]
  rw [hcong, ← List.range_eq_range', ← popcount_eq_countP_range vs.length bm hlen]
  simp

theorem distributeRewards_ok_frame (w : World) (bm sid wh : Nat) (w' : World)
    (h : distributeRewards w bm sid wh = .ok w') :
    w'.orc = w.orc ∧ w'.reg = w.reg ∧ w'.minted = w.minted ∧ w'.now = w.now := by
  simp only [distributeRewards] at h
  split at h
  · rw [Except.ok.injEq] at h
    subst h
    exact ⟨rfl, rfl, rfl, rfl⟩
  · split at h
    · rw [Except.ok.injEq] at h
      subst h
      exact ⟨rfl, rfl, rfl, rfl⟩
    · split at h
      · simp at h
      · rw [Except.ok.injEq] at h
        subst h
        exact ⟨rfl, rfl, rfl, rfl⟩

theorem recordFaults_orc (w : World) (bm sid : Nat) (ft : FaultType) :
    (recordFaults w bm sid ft).orc = w.orc := by
  simp only [recordFaults]
  split
  · rfl
  · rw [recordFaultsLoop_orc]

end Treasury

-- ============ Oracle lemmas ============

namespace Oracle

theorem selectWinner_fst (subs : (Nat × Nat) → ValueSubmission) :
    ∀ (l : List (Nat × Nat)) (acc : Nat × (Nat × Nat)),
      (selectWinner subs l acc).1 =
        l.foldl (fun m vh => max m (subs vh).count) acc.1 := by
  intro l
  induction l with
  | nil => intro acc; rfl
  | cons vh rest ih =>
    intro acc
    simp only [selectWinner, List.foldl_cons]
    split
    · rw [ih]
      congr 1
      omega
    · rw [ih]
      congr 1
      omega

theorem selectWinner_le (subs : (Nat × Nat) → ValueSubmission) :
    ∀ (l : List (Nat × Nat)) (acc : Nat × (Nat × Nat)),
      acc.1 ≤ (selectWinner subs l acc).1 := by
  intro l
  induction l with
  | nil => intro acc; exact le_rfl
  | cons vh rest ih =>
    intro acc
    simp only [selectWinner]
    split
    · exact le_trans (by omega) (ih _)
    · exact ih acc

theorem selectWinner_spec (subs : (Nat × Nat) → ValueSubmission) :
    ∀ (l : List (Nat × Nat)) (acc : Nat × (Nat × Nat)),
      selectWinner subs l acc = acc ∨
        ((selectWinner subs l acc).2 ∈ l ∧
          (subs (selectWinner subs l acc).2).count = (selectWinner subs l acc).1) := by
  intro l
  induction l with
  | nil => intro acc; exact Or.inl rfl
  | cons vh rest ih =>
    intro acc
    simp only [selectWinner]
    split
    · rcases ih ((subs vh).count, vh) with h | h
      · right
        rw [h]
        exact ⟨List.mem_cons_self vh rest, rfl⟩
      · right
        exact ⟨List.mem_cons_of_mem vh h.1, h.2⟩
    · rcases ih acc with h | h
      · exact Or.inl h
      · right
        exact ⟨List.mem_cons_of_mem vh h.1, h.2⟩

theorem selectWinner_ge_mem (subs : (Nat × Nat) → ValueSubmission) :
    ∀ (l : List (Nat × Nat)) (acc : Nat × (Nat × Nat)) (vh : Nat × Nat),
      vh ∈ l → (subs vh).count ≤ (selectWinner subs l acc).1 := by
  intro l
  induction l with
  | nil => intro acc vh hvh; simp at hvh
  | cons a rest ih =>
    intro acc vh hvh
    simp only [selectWinner]
    rcases List.mem_cons.mp hvh with h0 | hmem
    · subst h0
      split
      · exact selectWinner_le subs rest ((subs vh).count, vh)
      · exact le_trans (by omega) (selectWinner_le subs rest acc)
    · split
      · exact ih _ vh hmem
      · exact ih acc vh hmem

/-- `_finalizeWithValue` on success: the bucket is overwritten with the
finalized record and the rest of the oracle storage is untouched. -/
theorem finalizeWithValue_ok_orc (w : World) (ck : Nat × Nat)
    (pid hid wh er bm : Nat) (w' : World)
    (h : finalizeWithValue w ck pid hid wh er bm = .ok w') :
    w'.orc = { w.orc with
      buckets := updFn w.orc.buckets ck
        { w.orc.buckets ck with
            finalized := true
            disputed := false
            verifiedEnergyWh := wh
            evidenceRoot := er
            winningValueHash := (wh, er)
            winningVerifierBitmap := bm } } ∧ w'.reg = w.reg := by
  simp only [finalizeWithValue] at h
  split at h
  · simp at h
  · split at h
    · simp at h
    · rename_i w3 heq
      rw [Except.ok.injEq] at h
      subst h
      have := Treasury.distributeRewards_ok_frame _ _ _ _ _ heq
      exact ⟨this.1, this.2.1⟩

end Oracle

-- ============ Success-condition helpers ============

namespace Treasury

theorem distributeRewards_ok_of_le (w : World) (bm sid wh : Nat)
    (h : wh * w.trs.rewardPerWhWei ≤ w.trs.rewardPool) :
    ∃ w', distributeRewards w bm sid wh = .ok w' := by
  simp only [distributeRewards]
  split
  · exact ⟨_, rfl⟩
  · split
    · exact ⟨_, rfl⟩
    · split
      · rename_i hlt
        exact absurd h (by omega)
      · exact ⟨_, rfl⟩

end Treasury

namespace Oracle

theorem finalizeWithValue_ok_of (w : World) (ck : Nat × Nat)
    (pid hid wh er bm : Nat)
    (hprod : (w.reg.producers pid).isSome = true)
    (hpool : wh * w.trs.rewardPerWhWei ≤ w.trs.rewardPool) :
    ∃ w', finalizeWithValue w ck pid hid wh er bm = .ok w' := by
  obtain ⟨p, hp⟩ := Option.isSome_iff_exists.mp hprod
  simp only [finalizeWithValue, hp]
  obtain ⟨w3, h3⟩ := Treasury.distributeRewards_ok_of_le
    { w with
        orc := { w.orc with
          buckets := updFn w.orc.buckets ck
            { w.orc.buckets ck with
                finalized := true
                disputed := false
                verifiedEnergyWh := wh
                evidenceRoot := er
                winningValueHash := (wh, er)
                winningVerifierBitmap := bm } }
        minted := w.minted ++ [(p.payoutAddr, hid, wh, ck)] }
    bm (w.orc.buckets ck).snapshotId wh hpool
  rw [h3]
  exact ⟨_, rfl⟩

end Oracle

/-- Re-writing `disputed := true, finalized := false` into a bucket already
in that state is the identity. -/
theorem ClaimBucket.update_disputed_self (b : ClaimBucket)
    (h1 : b.disputed = true) (h2 : b.finalized = false) :
    { b with disputed := true, finalized := false } = b := by
  cases b
  simp at h1 h2
  simp [h1, h2]

namespace Registry

/-- The linear scan agrees with `List.indexOf` on members. -/
theorem scanIndex_eq_indexOf (v : Nat) :
    ∀ (l : List Nat), v ∈ l → scanIndex v l = some (l.indexOf v) := by
  intro l
  induction l with
  | nil => intro hv; simp at hv
  | cons a rest ih =>
    intro hv
    by_cases hav : a = v
    · subst hav
      simp [scanIndex, List.indexOf_cons]
    · have hvrest : v ∈ rest := by
        rcases List.mem_cons.mp hv with h0 | h0
        · exact absurd h0.symm hav
        · exact h0
      have hne : (a == v) = false := by
        simp [hav]
      simp [scanIndex, ih hvrest, List.indexOf_cons, hne, hav]

end Registry

/-- The spec's notion (§8, invariant 5) of the position of a verifier in
the ascending sort of the active verifier set, written with the textbook
sort, independently of the implementation's exchange sort. -/
def sortedPosition (l : List Nat) (v : Nat) : Nat :=
  (List.insertionSort (· ≤ ·) l).indexOf v

-- ============ Concrete worlds for witnesses and counterexamples ============

/-- A freshly deployed system: default configuration, no verifiers,
producers, snapshots, claims, faults or rewards. -/
def emptyWorld : World where
  reg := {
    verifiers := fun _ => ⟨0, 0, false, false⟩
    activeVerifiers := []
    activeVerifierIndex := fun _ => 0
    producers := fun _ => none
    claimKeyToSnapshotId := fun _ => 0
    snapshots := fun _ => ⟨[], 0⟩
    nextSnapshotId := 1
    minStake := 100
    permissionedMode := true }
  orc := {
    claimWindow := 3600
    quorumBps := 6667
    baselineMode := false
    singleVerifierOverride := 0
    buckets := fun _ => ClaimBucket.empty
    valueSubs := fun _ _ => ValueSubmission.empty
    hasSubmitted := fun _ _ => false
    submittedEvidenceRoots := fun _ _ => false
    claimValueHashes := fun _ => [] }
  trs := {
    rewardPool := 0
    rewardPerWhWei := 1
    slashBps := 1000
    faultThreshold := 3
    slashingDisabled := false
    verifierFaults := fun _ => 0
    pendingRewards := fun _ => 0
    isSlashed := fun _ => false }
  now := 0
  minted := []
  events := []

/-- World with a 3-verifier snapshot (id 1) and nothing else. -/
def snapWorld : World :=
  { emptyWorld with
      reg := { emptyWorld.reg with
        snapshots := updFn emptyWorld.reg.snapshots 1 ⟨[10, 11, 12], 0⟩ } }

-- ============ C10 ============

/-- C10: `Registry.reduceStake(v, a)` never reverts — it is a total
function, mirroring the absence of any revert path in the source.  When
`a ≤ stake(v)` the stake decreases by exactly `a`; otherwise the stake is
clamped to `0`.  In particular a stake never underflows (the result is a
natural number computed by checked branches, never a wrapping
subtraction). -/
theorem reduceStake_never_reverts (w : World) (v a : Nat) :
    ((Registry.reduceStake w v a).reg.verifiers v).stake =
      (if a ≤ (w.reg.verifiers v).stake then (w.reg.verifiers v).stake - a
       else 0) := by
  by_cases h : a ≤ (w.reg.verifiers v).stake <;>
    simp [Registry.reduceStake, updFn, ge_iff_le, h]

-- ============ C9 ============

/-- C9 (counterexample to the claim as stated): `Treasury.recordFault`
increments the Treasury's own `verifierFaults` counter but leaves the
`faults` attribute of the Registry's Verifier record — the value returned
by `Registry.getVerifier` — unchanged: `Registry.incrementFaults` is never
invoked. -/
theorem recordFault_registry_unchanged_counterexample :
    (Treasury.recordFault emptyWorld 7 .wrongValue).trs.verifierFaults 7 = 1 ∧
    ((Treasury.recordFault emptyWorld 7 .wrongValue).reg.verifiers 7).faults = 0 ∧
    (emptyWorld.reg.verifiers 7).faults = 0 ∧
    ¬((Treasury.recordFault emptyWorld 7 .wrongValue).reg.verifiers 7).faults =
        (emptyWorld.reg.verifiers 7).faults + 1 := by
  decide

/-- C9 (amended): recording a fault against `v` — directly via
`Treasury.recordFault` or through a `recordFaults` batch whose loser bitmap
has `v`'s snapshot index set (below the 16-bit cutoff) — increments the
Treasury's `verifierFaults[v]` counter (returned by `Treasury.getFaults`)
by one, and leaves the `faults` field of the Registry Verifier record
unchanged. -/
theorem recordFault_counters_amended :
    (∀ (w : World) (v : Nat) (ft : FaultType),
      (Treasury.recordFault w v ft).trs.verifierFaults v =
        w.trs.verifierFaults v + 1 ∧
      ((Treasury.recordFault w v ft).reg.verifiers v).faults =
        (w.reg.verifiers v).faults) ∧
    (∀ (w : World) (bm sid : Nat) (ft : FaultType) (j : Nat)
        (hj : j < (Registry.getSnapshotVerifiers w sid).length),
      (Registry.getSnapshotVerifiers w sid).Nodup → j < 16 →
      bm.testBit j = true →
      (Treasury.recordFaults w bm sid ft).trs.verifierFaults
          ((Registry.getSnapshotVerifiers w sid).get ⟨j, hj⟩) =
        w.trs.verifierFaults
          ((Registry.getSnapshotVerifiers w sid).get ⟨j, hj⟩) + 1 ∧
      ((Treasury.recordFaults w bm sid ft).reg.verifiers
          ((Registry.getSnapshotVerifiers w sid).get ⟨j, hj⟩)).faults =
        (w.reg.verifiers
          ((Registry.getSnapshotVerifiers w sid).get ⟨j, hj⟩)).faults) := by
  constructor
  · intro w v ft
    exact ⟨Treasury.recordFault_verifierFaults_same w v ft,
           Treasury.recordFault_reg_faults w v ft v⟩
  · intro w bm sid ft j hj hnd h16 hbit
    have hbm : bm ≠ 0 := by
      intro h0
      rw [h0, Nat.zero_testBit] at hbit
      exact Bool.false_ne_true hbit
    constructor
    · rw [Treasury.recordFaults, if_neg hbm]
      have := Treasury.recordFaultsLoop_faults_get bm ft
        (Registry.getSnapshotVerifiers w sid) 0 w j hj hnd
        (by omega) (by simpa using hbit)
      exact this
    · rw [Treasury.recordFaults, if_neg hbm]
      exact Treasury.recordFaultsLoop_reg_faults bm ft _ 0 w _

/-- C9 (witness): the amended theorem applied to concrete states — a direct
fault and a batch over snapshot 1 with loser bitmap 0b101. -/
theorem recordFault_counters_amended_witness :
    (Treasury.recordFault emptyWorld 3 .lateSubmission).trs.verifierFaults 3 = 1 ∧
    (Treasury.recordFaults snapWorld 5 1 .wrongValue).trs.verifierFaults 10 = 1 ∧
    ((Treasury.recordFaults snapWorld 5 1 .wrongValue).reg.verifiers 10).faults = 0 := by
  refine ⟨?_, ?_, ?_⟩
  · exact (recordFault_counters_amended.1 emptyWorld 3 .lateSubmission).1
  · exact (recordFault_counters_amended.2 snapWorld 5 1 .wrongValue 0
      (by decide) (by decide) (by decide) (by decide)).1
  · exact (recordFault_counters_amended.2 snapWorld 5 1 .wrongValue 0
      (by decide) (by decide) (by decide) (by decide)).2

-- ============ C6 ============

/-- C6 (amended): when a fault drives a not-yet-slashed verifier to the
fault threshold while slashing is enabled, and `slashBps ≤ 10000` (so the
computed amount cannot exceed the stake), the verifier is slashed exactly
once: `slashAmount = stake · slashBps / 10000` is taken from the current
stake, the Registry stake drops by exactly `slashAmount`, the reward pool
grows by `slashAmount`, `isSlashed` is set; any later fault leaves the
stake unchanged and a later manual `slash` fails `AlreadySlashed`. -/
theorem recordFault_slash_spec (w : World) (v : Nat) (ft : FaultType)
    (hdis : w.trs.slashingDisabled = false)
    (hns : w.trs.isSlashed v = false)
    (hth : w.trs.faultThreshold ≤ w.trs.verifierFaults v + 1)
    (hamt : (w.reg.verifiers v).stake * w.trs.slashBps / 10000 ≤
      (w.reg.verifiers v).stake) :
    (Treasury.recordFault w v ft).trs.isSlashed v = true ∧
    ((Treasury.recordFault w v ft).reg.verifiers v).stake =
      (w.reg.verifiers v).stake -
        (w.reg.verifiers v).stake * w.trs.slashBps / 10000 ∧
    (Treasury.recordFault w v ft).trs.rewardPool =
      w.trs.rewardPool + (w.reg.verifiers v).stake * w.trs.slashBps / 10000 := by
  simp only [Treasury.recordFault]
  split
  · simp only [Treasury.slashCore, Registry.reduceStake]
    split
    · refine ⟨by simp [updFn], ?_, by rfl⟩
      simp [updFn, ge_iff_le, hamt]
    · rename_i hnpos
      have h0 : (w.reg.verifiers v).stake * w.trs.slashBps / 10000 = 0 := by
        omega
      refine ⟨by simp [updFn], by simp [h0], by simp [h0]⟩
  · rename_i hc
    exact absurd ⟨by simp [hdis], by simpa using hth, by simp [hns]⟩ hc

theorem recordFault_reg_of_slashed (w : World) (v : Nat) (ft : FaultType)
    (h : w.trs.isSlashed v = true) :
    (Treasury.recordFault w v ft).reg = w.reg := by
  simp only [Treasury.recordFault]
  split
  · rename_i hc
    exact absurd (by simpa using h) (by simpa using hc.2.2)
  · rfl

theorem recordFault_faultThreshold (w : World) (v : Nat) (ft : FaultType) :
    (Treasury.recordFault w v ft).trs.faultThreshold = w.trs.faultThreshold := by
  simp only [Treasury.recordFault]
  split
  · simp only [Treasury.slashCore, Registry.reduceStake]
    split <;> rfl
  · rfl

theorem recordFault_isSlashed_of (w : World) (v : Nat) (ft : FaultType)
    (h : w.trs.isSlashed v = true) :
    (Treasury.recordFault w v ft).trs.isSlashed v = true := by
  simp only [Treasury.recordFault]
  split
  · rename_i hc
    exact absurd (by simpa using h) (by simpa using hc.2.2)
  · simpa using h

theorem slash_already_slashed (w : World) (v : Nat)
    (hf : ¬w.trs.verifierFaults v < w.trs.faultThreshold)
    (hs : w.trs.isSlashed v = true) :
    Treasury.slash w v = .error (.AlreadySlashed v) := by
  simp [Treasury.slash, hf, hs]

/-- C6 (amended): when a fault drives a not-yet-slashed verifier to the
fault threshold while slashing is enabled, and `slashBps ≤ 10000` (so the
computed amount cannot exceed the stake), the verifier is slashed exactly
once: `slashAmount = stake · slashBps / 10000` is computed from the current
stake, the Registry stake drops by exactly `slashAmount`, the reward pool
grows by `slashAmount`, and `isSlashed` is set; any later fault leaves the
stake unchanged and a later manual `slash` fails `AlreadySlashed`.  The
`slashBps ≤ 10000` proviso is forced by the counterexample
`slash_bps_above_10000_counterexample`: the source validates `quorumBps`
but never `slashBps`. -/
theorem auto_slash_once_amended (w : World) (v : Nat) (ft : FaultType)
    (hdis : w.trs.slashingDisabled = false)
    (hns : w.trs.isSlashed v = false)
    (hth : w.trs.faultThreshold ≤ w.trs.verifierFaults v + 1)
    (hbps : w.trs.slashBps ≤ 10000) :
    (Treasury.recordFault w v ft).trs.isSlashed v = true ∧
    ((Treasury.recordFault w v ft).reg.verifiers v).stake =
      (w.reg.verifiers v).stake -
        (w.reg.verifiers v).stake * w.trs.slashBps / 10000 ∧
    (Treasury.recordFault w v ft).trs.rewardPool =
      w.trs.rewardPool + (w.reg.verifiers v).stake * w.trs.slashBps / 10000 ∧
    (∀ ft2 : FaultType,
      ((Treasury.recordFault (Treasury.recordFault w v ft) v ft2).reg.verifiers
          v).stake =
        ((Treasury.recordFault w v ft).reg.verifiers v).stake) ∧
    errOf (Treasury.slash (Treasury.recordFault w v ft) v) =
      some (.AlreadySlashed v) := by
  have hamt : (w.reg.verifiers v).stake * w.trs.slashBps / 10000 ≤
      (w.reg.verifiers v).stake := by
    calc (w.reg.verifiers v).stake * w.trs.slashBps / 10000
        ≤ (w.reg.verifiers v).stake * 10000 / 10000 :=
          Nat.div_le_div_right (Nat.mul_le_mul_left _ hbps)
      _ = (w.reg.verifiers v).stake := Nat.mul_div_cancel _ (by omega)
  obtain ⟨h1, h2, h3⟩ := recordFault_slash_spec w v ft hdis hns hth hamt
  refine ⟨h1, h2, h3, ?_, ?_⟩
  · intro ft2
    rw [recordFault_reg_of_slashed _ _ _ h1]
  · rw [slash_already_slashed _ _ ?_ h1]
    · rfl
    · rw [Treasury.recordFault_verifierFaults_same, recordFault_faultThreshold]
      omega

/-- World used to exercise the slashing path: verifier 7 has stake 100 and
is one fault away from the threshold; `setSlashBps` (which performs no
range validation in the source) has pushed `slashBps` to 20000. -/
def overSlashWorld : World :=
  Treasury.setSlashBps
    { emptyWorld with
        reg := { emptyWorld.reg with
          verifiers := updFn emptyWorld.reg.verifiers 7 ⟨100, 0, true, true⟩ }
        trs := { emptyWorld.trs with faultThreshold := 1 } }
    20000

/-- C6 (counterexample to the claim as stated): with `slashBps = 20000`
(reachable, since `Treasury.setSlashBps` has no range check) and stake 100,
`slashAmount = 100 · 20000 / 10000 = 200`, but the stake is only clamped
from 100 to 0 — a reduction of 100, not `slashAmount` — while the reward
pool is still credited the full 200. -/
theorem slash_bps_above_10000_counterexample :
    overSlashWorld.trs.slashBps = 20000 ∧
    (overSlashWorld.reg.verifiers 7).stake = 100 ∧
    (overSlashWorld.reg.verifiers 7).stake * overSlashWorld.trs.slashBps / 10000 =
      200 ∧
    ((Treasury.recordFault overSlashWorld 7 .wrongValue).reg.verifiers 7).stake =
      0 ∧
    (Treasury.recordFault overSlashWorld 7 .wrongValue).trs.rewardPool =
      overSlashWorld.trs.rewardPool + 200 ∧
    ¬(overSlashWorld.reg.verifiers 7).stake -
        ((Treasury.recordFault overSlashWorld 7 .wrongValue).reg.verifiers
          7).stake =
      (overSlashWorld.reg.verifiers 7).stake * overSlashWorld.trs.slashBps /
        10000 := by
  decide

/-- World for the amended-slashing witness: default `slashBps = 1000`,
threshold 1, verifier 8 staked 100. -/
def slashWitnessWorld : World :=
  { emptyWorld with
      reg := { emptyWorld.reg with
        verifiers := updFn emptyWorld.reg.verifiers 8 ⟨100, 0, true, true⟩ }
      trs := { emptyWorld.trs with faultThreshold := 1 } }

/-- C6 (witness): the amended theorem at a concrete state — the third
fault is the first, threshold 1, 10% slash of a 100 stake. -/
theorem auto_slash_once_amended_witness :
    (Treasury.recordFault slashWitnessWorld 8 .wrongValue).trs.isSlashed 8 =
      true ∧
    ((Treasury.recordFault slashWitnessWorld 8 .wrongValue).reg.verifiers
        8).stake = 90 ∧
    (Treasury.recordFault slashWitnessWorld 8 .wrongValue).trs.rewardPool =
      10 := by
  have h := auto_slash_once_amended slashWitnessWorld 8 .wrongValue
    (by decide) (by decide) (by decide) (by decide)
  exact ⟨h.1, h.2.1, h.2.2.1⟩

-- ============ C5 ============

/-- C5 (amended): `Treasury.distributeRewards` behaves as specified
whenever every set bit of the winner bitmap addresses an actual snapshot
slot below the 16-bit cutoff (`winnerBitmap < 2 ^ min |snapshot| 16`):
zero winners / zero total emit a zero-reward event and change nothing;
an undercapitalised pool reverts `InsufficientRewardPool`; otherwise each
winner gains `⌊total / winners⌋` pending reward and the pool shrinks by
exactly `⌊total / winners⌋ · winners`.  The bitmap-fits proviso is forced
by `distributeRewards_out_of_range_bit_counterexample`: the loop bound
`i < min (length, 16)` silently skips set bits beyond it while `popcount`
still counts them. -/
theorem distributeRewards_spec_amended :
    (∀ (w : World) (bm sid wh : Nat),
      popcount bm = 0 ∨ wh = 0 ∨ w.trs.rewardPerWhWei = 0 →
      Treasury.distributeRewards w bm sid wh =
        .ok { w with events := w.events ++ [.RewardsDistributed bm sid 0] }) ∧
    (∀ (w : World) (bm sid wh : Nat),
      popcount bm ≠ 0 → wh * w.trs.rewardPerWhWei ≠ 0 →
      w.trs.rewardPool < wh * w.trs.rewardPerWhWei →
      Treasury.distributeRewards w bm sid wh =
        .error (.InsufficientRewardPool (wh * w.trs.rewardPerWhWei)
          w.trs.rewardPool)) ∧
    (∀ (w : World) (bm sid wh : Nat) (w' : World),
      bm < 2 ^ min (Registry.getSnapshotVerifiers w sid).length 16 →
      (Registry.getSnapshotVerifiers w sid).Nodup →
      Treasury.distributeRewards w bm sid wh = .ok w' →
      popcount bm ≠ 0 → wh * w.trs.rewardPerWhWei ≠ 0 →
      (∀ (j : Nat) (hj : j < (Registry.getSnapshotVerifiers w sid).length),
        bm.testBit j = true →
        w'.trs.pendingRewards ((Registry.getSnapshotVerifiers w sid).get ⟨j, hj⟩) =
          w.trs.pendingRewards ((Registry.getSnapshotVerifiers w sid).get ⟨j, hj⟩) +
            wh * w.trs.rewardPerWhWei / popcount bm) ∧
      w.trs.rewardPool =
        w'.trs.rewardPool +
          (wh * w.trs.rewardPerWhWei / popcount bm) * popcount bm) := by
  refine ⟨?_, ?_, ?_⟩
  · intro w bm sid wh h
    simp only [Treasury.distributeRewards]
    split
    · rfl
    · rename_i hpc
      have htot : wh * w.trs.rewardPerWhWei = 0 := by
        rcases h with h | h | h
        · exact absurd h hpc
        · simp [h]
        · simp [h]
      rw [if_pos htot]
  · intro w bm sid wh h1 h2 h3
    simp only [Treasury.distributeRewards]
    rw [if_neg h1, if_neg h2, if_pos h3]
  · intro w bm sid wh w' hbm hnd hok h1 h2
    simp only [Treasury.distributeRewards] at hok
    rw [if_neg h1, if_neg h2] at hok
    split at hok
    · exact absurd hok (by simp)
    · rename_i h3
      rw [Except.ok.injEq] at hok
      subst hok
      constructor
      · intro j hj hbit
        have h16 : j < 16 := by
          have := testBit_lt_of_lt_two_pow hbm hbit
          omega
        have := Treasury.distLoop_fst_get bm
          (wh * w.trs.rewardPerWhWei / popcount bm)
          (Registry.getSnapshotVerifiers w sid) 0 w.trs.pendingRewards 0
          j hj hnd (by omega) (by simpa using hbit)
        simpa using this
      · have hsum := Treasury.distLoop_snd_popcount bm
          (wh * w.trs.rewardPerWhWei / popcount bm)
          (Registry.getSnapshotVerifiers w sid) w.trs.pendingRewards hbm
        have hle : (wh * w.trs.rewardPerWhWei / popcount bm) * popcount bm ≤
            wh * w.trs.rewardPerWhWei := Nat.div_mul_le_self _ _
        simp only [hsum]
        omega

/-- Snapshot with a single verifier but a pool-funded treasury, used to
show a winner bitmap bit beyond the snapshot length being dropped. -/
def shortSnapWorld : World :=
  { emptyWorld with
      reg := { emptyWorld.reg with
        snapshots := updFn emptyWorld.reg.snapshots 1 ⟨[10], 0⟩ }
      trs := { emptyWorld.trs with rewardPool := 10 } }

/-- C5 (counterexample to the claim as stated): with a 1-element snapshot
and `winnerBitmap = 0b10` (popcount 1, but the set bit is index 1, beyond
the snapshot), the call succeeds, distributes nothing, and the pool does
not decrease by `⌊total/winners⌋ · winners = 1` as the claim requires. -/
theorem distributeRewards_out_of_range_bit_counterexample :
    popcount 2 = 1 ∧
    errOf (Treasury.distributeRewards shortSnapWorld 2 1 1) = none ∧
    (txRun (fun w => Treasury.distributeRewards w 2 1 1)
        shortSnapWorld).trs.rewardPool = 10 ∧
    ¬(txRun (fun w => Treasury.distributeRewards w 2 1 1)
        shortSnapWorld).trs.rewardPool =
      shortSnapWorld.trs.rewardPool -
        (1 * shortSnapWorld.trs.rewardPerWhWei / popcount 2) * popcount 2 := by
  decide

/-- Three-verifier snapshot with a funded pool for the C5 witness. -/
def rewardWorld : World :=
  { emptyWorld with
      reg := { emptyWorld.reg with
        snapshots := updFn emptyWorld.reg.snapshots 1 ⟨[10, 11, 12], 0⟩ }
      trs := { emptyWorld.trs with rewardPool := 5000 } }

def rewardWorldRes : World :=
  txRun (fun w => Treasury.distributeRewards w 7 1 3) rewardWorld

/-- C5 (witness): all three parts of the amended theorem at concrete
states — an empty bitmap, an undercapitalised pool, and a successful
3-winner distribution of 3 Wh at rate 1. -/
theorem distributeRewards_spec_amended_witness :
    Treasury.distributeRewards emptyWorld 0 1 5 =
      .ok { emptyWorld with
              events := emptyWorld.events ++ [.RewardsDistributed 0 1 0] } ∧
    Treasury.distributeRewards shortSnapWorld 1 1 50 =
      .error (.InsufficientRewardPool 50 10) ∧
    rewardWorldRes.trs.pendingRewards 10 = 1 ∧
    rewardWorld.trs.rewardPool =
      rewardWorldRes.trs.rewardPool +
        (3 * rewardWorld.trs.rewardPerWhWei / popcount 7) * popcount 7 := by
  refine ⟨?_, ?_, ?_, ?_⟩
  · exact distributeRewards_spec_amended.1 emptyWorld 0 1 5 (Or.inl (by decide))
  · exact distributeRewards_spec_amended.2.1 shortSnapWorld 1 1 50
      (by decide) (by decide) (by decide)
  · exact ((distributeRewards_spec_amended.2.2 rewardWorld 7 1 3 rewardWorldRes
      (by decide) (by decide) rfl (by decide) (by decide)).1 0 (by decide)
      (by decide))
  · exact (distributeRewards_spec_amended.2.2 rewardWorld 7 1 3 rewardWorldRes
      (by decide) (by decide) rfl (by decide) (by decide)).2

-- ============ C7 ============

/-- C7: round-trip of snapshot creation and index lookup.  If
`createSnapshot` succeeds on a set of distinct active verifiers (at most
256, so the `uint8` return cast is lossless; the system bound is 16), then
for every active verifier `v`, `getVerifierIndex` on the returned snapshot
id yields exactly the position of `v` in the ascending sort of the active
verifier set — equivalently, the number of active verifiers with a smaller
address — and it fails `VerifierNotInSnapshot` on every address outside
the set. -/
theorem createSnapshot_getVerifierIndex_roundtrip (w : World) (ck : Nat × Nat)
    (hnodup : w.reg.activeVerifiers.Nodup)
    (hlen : w.reg.activeVerifiers.length ≤ 256)
    (w' : World) (sid : Nat)
    (hok : Registry.createSnapshot w ck = .ok (w', sid)) :
    (∀ v ∈ w.reg.activeVerifiers,
      Registry.getVerifierIndex w' sid v =
        .ok (sortedPosition w.reg.activeVerifiers v) ∧
      sortedPosition w.reg.activeVerifiers v =
        w.reg.activeVerifiers.countP (fun u => decide (u < v))) ∧
    (∀ u, u ∉ w.reg.activeVerifiers →
      Registry.getVerifierIndex w' sid u =
        .error (.VerifierNotInSnapshot u sid)) := by
  simp only [Registry.createSnapshot] at hok
  split at hok
  · exact absurd hok (by simp)
  · split at hok
    · exact absurd hok (by simp)
    · rw [Except.ok.injEq, Prod.mk.injEq] at hok
      obtain ⟨hw', hsid⟩ := hok
      subst hw'
      subst hsid
      have hperm := Registry.sortAddresses_perm w.reg.activeVerifiers
      have hsorted := Registry.sortAddresses_sorted w.reg.activeVerifiers
      have hnds : (Registry.sortAddresses w.reg.activeVerifiers).Nodup :=
        (hperm.symm.nodup hnodup)
      constructor
      · intro v hv
        have hvs : v ∈ Registry.sortAddresses w.reg.activeVerifiers :=
          hperm.mem_iff.mpr hv
        have hscan := Registry.scanIndex_eq_indexOf v _ hvs
        have hidx : (Registry.sortAddresses w.reg.activeVerifiers).indexOf v <
            (Registry.sortAddresses w.reg.activeVerifiers).length :=
          List.indexOf_lt_length.mpr hvs
        have hlens : (Registry.sortAddresses w.reg.activeVerifiers).length =
            w.reg.activeVerifiers.length := hperm.length_eq
        have hmod : (Registry.sortAddresses w.reg.activeVerifiers).indexOf v %
            256 = (Registry.sortAddresses w.reg.activeVerifiers).indexOf v :=
          Nat.mod_eq_of_lt (by omega)
        have hpos : (Registry.sortAddresses w.reg.activeVerifiers).indexOf v =
            sortedPosition w.reg.activeVerifiers v := by
          rw [sortedPosition,
            ← Registry.sortAddresses_eq_insertionSort w.reg.activeVerifiers]
        -- the rank characterisation: first index in the strictly sorted
        -- snapshot equals the number of smaller addresses
        have hlt : List.Sorted (· < ·)
            (Registry.sortAddresses w.reg.activeVerifiers) :=
          List.Sorted.lt_of_le hsorted hnds
        have hrank := Registry.scanIndex_sorted v _ hlt hvs
        have hcount : (Registry.sortAddresses w.reg.activeVerifiers).indexOf v =
            w.reg.activeVerifiers.countP (fun u => decide (u < v)) := by
          have h1 := Option.some.inj (hscan.symm.trans hrank)
          rw [h1]
          exact hperm.countP_eq _
        refine ⟨?_, by rw [← hpos, hcount]⟩
        simp only [Registry.getVerifierIndex, updFn_same, hscan]
        rw [hmod, hpos]
      · intro u hu
        have hus : u ∉ Registry.sortAddresses w.reg.activeVerifiers :=
          fun h => hu (hperm.mem_iff.mp h)
        simp only [Registry.getVerifierIndex, updFn_same,
          Registry.scanIndex_not_mem u _ hus]

/-- Active set `[30, 10, 20]` for the round-trip witness. -/
def roundtripWorld : World :=
  { emptyWorld with
      reg := { emptyWorld.reg with activeVerifiers := [30, 10, 20] } }

def roundtripSnap : World × Nat :=
  match Registry.createSnapshot roundtripWorld (9, 9) with
  | .ok p => p
  | .error _ => (roundtripWorld, 0)

/-- C7 (witness): the round-trip at a concrete three-verifier set —
address 20 sits at position 1 of the ascending sort `[10, 20, 30]`, and a
foreign address is rejected. -/
theorem createSnapshot_getVerifierIndex_roundtrip_witness :
    Registry.getVerifierIndex roundtripSnap.1 roundtripSnap.2 20 = .ok 1 ∧
    Registry.getVerifierIndex roundtripSnap.1 roundtripSnap.2 99 =
      .error (.VerifierNotInSnapshot 99 roundtripSnap.2) := by
  have h := createSnapshot_getVerifierIndex_roundtrip roundtripWorld (9, 9)
    (by decide) (by decide) roundtripSnap.1 roundtripSnap.2 rfl
  exact ⟨(h.1 20 (by decide)).1, h.2 99 (by decide)⟩

-- ============ C8 ============

/-- C8 (amended): a second `finalizeProduction` on a claim whose first
finalization actually finalized it fails `ClaimAlreadyFinalized` (the
revert leaves all state unchanged); but if the first call left the claim
*disputed*, a second call after the deadline succeeds again: it rewrites
the already-set disputed flags (no bucket change) and re-emits
`ClaimDisputed`.  The "fails" half of the original claim therefore only
holds for the finalized outcome, as forced by
`second_finalize_on_disputed_succeeds`. -/
theorem finalize_idempotence_amended :
    (∀ (w : World) (pid hid : Nat),
      (w.orc.buckets (pid, hid)).finalized = true →
      Oracle.finalizeProduction w pid hid =
        .error (.ClaimAlreadyFinalized (pid, hid))) ∧
    (∀ (w : World) (pid hid : Nat),
      (w.orc.buckets (pid, hid)).finalized = false →
      (w.orc.buckets (pid, hid)).disputed = true →
      (w.orc.buckets (pid, hid)).deadline ≠ 0 →
      (w.orc.buckets (pid, hid)).deadline < w.now →
      (Oracle.selectWinner (w.orc.valueSubs (pid, hid))
          (w.orc.claimValueHashes (pid, hid)) (0, (0, 0))).1 <
        (Registry.getSnapshotCount w (w.orc.buckets (pid, hid)).snapshotId *
          w.orc.quorumBps + 9999) / 10000 →
      Oracle.finalizeProduction w pid hid =
        .ok { w with events := w.events ++
          [.ClaimDisputed (pid, hid) pid hid "No quorum reached"] }) := by
  constructor
  · intro w pid hid hfin
    simp only [Oracle.finalizeProduction, Oracle.getClaimKey]
    rw [if_pos hfin]
  · intro w pid hid hfin hdisp hdl0 hnow hlow
    simp only [Oracle.finalizeProduction, Oracle.getClaimKey]
    rw [if_neg (by simp [hfin]), if_neg (by omega), if_pos hlow,
        ClaimBucket.update_disputed_self _ hdisp hfin, updFn_self]

/-- Disputed-claim scenario: three snapshot verifiers (quorum 3 at
6667 bps), two conflicting tallies with counts 2 and 1, deadline passed. -/
def disputeWorld : World :=
  { emptyWorld with
      reg := { emptyWorld.reg with
        producers := updFn emptyWorld.reg.producers 1 (some ⟨55⟩)
        snapshots := updFn emptyWorld.reg.snapshots 1 ⟨[10, 11, 12], 0⟩ }
      orc := { emptyWorld.orc with
        buckets := updFn emptyWorld.orc.buckets (1, 2)
          { ClaimBucket.empty with
              deadline := 10, snapshotId := 1, submissionCount := 3,
              maxSubmittedEnergyWh := 9000, allSubmittersBitmap := 7 }
        valueSubs := updFn emptyWorld.orc.valueSubs (1, 2)
          (updFn (updFn (emptyWorld.orc.valueSubs (1, 2))
            (5000, 77) ⟨2, 3, 77, 5000⟩) (9000, 88) ⟨1, 4, 88, 9000⟩)
        claimValueHashes :=
          updFn emptyWorld.orc.claimValueHashes (1, 2) [(5000, 77), (9000, 88)] }
      now := 20 }

def disputeWorldAfter : World :=
  txRun (fun w => Oracle.finalizeProduction w 1 2) disputeWorld

/-- C8 (counterexample to the claim as stated): the first finalize call on
the disputed scenario succeeds and marks the claim disputed; the *second*
finalize call then also succeeds (no revert) — it does not fail as the
claim requires. -/
theorem second_finalize_on_disputed_succeeds :
    errOf (Oracle.finalizeProduction disputeWorld 1 2) = none ∧
    (disputeWorldAfter.orc.buckets (1, 2)).disputed = true ∧
    (disputeWorldAfter.orc.buckets (1, 2)).finalized = false ∧
    errOf (Oracle.finalizeProduction disputeWorldAfter 1 2) = none := by
  decide

/-- Claim bucket already finalized, for the first half of the amended
idempotence theorem. -/
def finalizedWorld : World :=
  { emptyWorld with
      orc := { emptyWorld.orc with
        buckets := updFn emptyWorld.orc.buckets (1, 2)
          { ClaimBucket.empty with finalized := true } } }

/-- C8 (witness): both halves of the amended theorem at concrete states —
a finalized bucket reverts `ClaimAlreadyFinalized`, and a second call on
the concrete disputed scenario succeeds, re-emitting `ClaimDisputed` with
no other change. -/
theorem finalize_idempotence_amended_witness :
    Oracle.finalizeProduction finalizedWorld 1 2 =
      .error (.ClaimAlreadyFinalized (1, 2)) ∧
    Oracle.finalizeProduction disputeWorldAfter 1 2 =
      .ok { disputeWorldAfter with events := disputeWorldAfter.events ++
        [.ClaimDisputed (1, 2) 1 2 "No quorum reached"] } := by
  exact ⟨finalize_idempotence_amended.1 finalizedWorld 1 2 (by decide),
         finalize_idempotence_amended.2 disputeWorldAfter 1 2
           (by decide) (by decide) (by decide) (by decide) (by decide)⟩

/-- Happy-path scenario: producer 1 registered, snapshot 1 = three
verifiers, all three submitted the same tally (5000 Wh, evidence 77),
deadline passed, pool funded at rate 1. -/
def happyWorld : World :=
  { emptyWorld with
      reg := { emptyWorld.reg with
        producers := updFn emptyWorld.reg.producers 1 (some ⟨55⟩)
        snapshots := updFn emptyWorld.reg.snapshots 1 ⟨[10, 11, 12], 0⟩ }
      orc := { emptyWorld.orc with
        buckets := updFn emptyWorld.orc.buckets (1, 2)
          { ClaimBucket.empty with
              deadline := 10, snapshotId := 1, submissionCount := 3,
              maxSubmittedEnergyWh := 5000, allSubmittersBitmap := 7 }
        valueSubs := updFn emptyWorld.orc.valueSubs (1, 2)
          (updFn (emptyWorld.orc.valueSubs (1, 2)) (5000, 77) ⟨3, 7, 77, 5000⟩)
        claimValueHashes :=
          updFn emptyWorld.orc.claimValueHashes (1, 2) [(5000, 77)] }
      trs := { emptyWorld.trs with rewardPool := 5000 }
      now := 20 }

-- ============ C1 ============

/-- C1: for a production claim whose deadline has passed and that is not
finalized, `finalizeProduction` computes
`quorumRequired = (snapshotCount · quorumBps + 9999) / 10000` (the
rounded-up quorum), scans the tallies for the maximum submission count
(the scan result is exactly the fold of `max` over all tallies); if that
maximum is below the quorum it marks the bucket disputed, leaves
`finalized = false` and emits `ClaimDisputed`; otherwise (producer
registered, reward pool sufficient — the oracle's cross-contract calls
must not revert) the call succeeds, sets `finalized = true` and stores the
winning tally's `energyWh` as `verifiedEnergyWh`. -/
theorem finalizeProduction_quorum_behavior (w : World) (pid hid : Nat)
    (hfin : (w.orc.buckets (pid, hid)).finalized = false)
    (hdl0 : (w.orc.buckets (pid, hid)).deadline ≠ 0)
    (hnow : (w.orc.buckets (pid, hid)).deadline < w.now) :
    (Oracle.selectWinner (w.orc.valueSubs (pid, hid))
        (w.orc.claimValueHashes (pid, hid)) (0, (0, 0))).1 =
      (w.orc.claimValueHashes (pid, hid)).foldl
        (fun m vh => max m (w.orc.valueSubs (pid, hid) vh).count) 0 ∧
    ((Oracle.selectWinner (w.orc.valueSubs (pid, hid))
        (w.orc.claimValueHashes (pid, hid)) (0, (0, 0))).1 <
        (Registry.getSnapshotCount w (w.orc.buckets (pid, hid)).snapshotId *
          w.orc.quorumBps + 9999) / 10000 →
      Oracle.finalizeProduction w pid hid = .ok
        { w with
            orc := { w.orc with
              buckets := updFn w.orc.buckets (pid, hid)
                { w.orc.buckets (pid, hid) with
                    disputed := true, finalized := false } }
            events := w.events ++
              [.ClaimDisputed (pid, hid) pid hid "No quorum reached"] }) ∧
    ((Registry.getSnapshotCount w (w.orc.buckets (pid, hid)).snapshotId *
          w.orc.quorumBps + 9999) / 10000 ≤
        (Oracle.selectWinner (w.orc.valueSubs (pid, hid))
          (w.orc.claimValueHashes (pid, hid)) (0, (0, 0))).1 →
      (w.reg.producers pid).isSome = true →
      (w.orc.valueSubs (pid, hid)
          (Oracle.selectWinner (w.orc.valueSubs (pid, hid))
            (w.orc.claimValueHashes (pid, hid)) (0, (0, 0))).2).energyWh *
          w.trs.rewardPerWhWei ≤ w.trs.rewardPool →
      (Oracle.finalizeProduction w pid hid).isOk = true ∧
      ∀ w', Oracle.finalizeProduction w pid hid = .ok w' →
        (w'.orc.buckets (pid, hid)).finalized = true ∧
        (w'.orc.buckets (pid, hid)).verifiedEnergyWh =
          (w.orc.valueSubs (pid, hid)
            (Oracle.selectWinner (w.orc.valueSubs (pid, hid))
              (w.orc.claimValueHashes (pid, hid)) (0, (0, 0))).2).energyWh) := by
  refine ⟨Oracle.selectWinner_fst _ _ _, ?_, ?_⟩
  · intro hlt
    simp only [Oracle.finalizeProduction, Oracle.getClaimKey]
    rw [if_neg (by simp [hfin]), if_neg (by omega), if_pos hlt]
  · intro hge hprod hpool
    obtain ⟨w1, h1⟩ := Oracle.finalizeWithValue_ok_of w (pid, hid) pid hid
      (w.orc.valueSubs (pid, hid)
        (Oracle.selectWinner (w.orc.valueSubs (pid, hid))
          (w.orc.claimValueHashes (pid, hid)) (0, (0, 0))).2).energyWh
      (w.orc.valueSubs (pid, hid)
        (Oracle.selectWinner (w.orc.valueSubs (pid, hid))
          (w.orc.claimValueHashes (pid, hid)) (0, (0, 0))).2).evidenceRoot
      (w.orc.valueSubs (pid, hid)
        (Oracle.selectWinner (w.orc.valueSubs (pid, hid))
          (w.orc.claimValueHashes (pid, hid)) (0, (0, 0))).2).verifierBitmap
      hprod hpool
    have hfv := Oracle.finalizeWithValue_ok_orc w (pid, hid) pid hid _ _ _ w1 h1
    simp only [Oracle.finalizeProduction, Oracle.getClaimKey]
    rw [if_neg (by simp [hfin]), if_neg (by omega),
        if_neg (not_lt.mpr hge)]
    simp only [h1]
    constructor
    · split <;> rfl
    · intro w' hok
      have horc : w'.orc = w1.orc := by
        split at hok
        · rw [Except.ok.injEq] at hok
          subst hok
          rw [Treasury.recordFaults_orc]
        · rw [Except.ok.injEq] at hok
          subst hok
          rfl
      rw [horc, hfv.1]
      simp [updFn_same]

def happyWorldRes : World :=
  txRun (fun w => Oracle.finalizeProduction w 1 2) happyWorld

/-- C1 (witness): the quorum branch of the theorem at a concrete state —
3 of 3 verifiers agreeing on 5000 Wh meet the quorum
`(3·6667 + 9999)/10000 = 3`, so the bucket finalizes at 5000 Wh. -/
theorem finalizeProduction_quorum_behavior_witness :
    (happyWorldRes.orc.buckets (1, 2)).finalized = true ∧
    (happyWorldRes.orc.buckets (1, 2)).verifiedEnergyWh = 5000 := by
  have h := (finalizeProduction_quorum_behavior happyWorld 1 2
    (by decide) (by decide) (by decide)).2.2 (by decide) (by decide) (by decide)
  exact h.2 happyWorldRes rfl

-- ============ C2 ============

/-- C2 (amended): for buckets finalized by the normal `finalizeProduction`
path (under the per-claim tally consistency facts that submissions
maintain — every recorded tally's energy is bounded by the bucket maximum
and every tally count is bounded by the popcount of its bitmap — and a
positive quorum), both halves of the invariant hold:
`verifiedWh ≤ maxSubmittedWh` and
`popcount(winningVerifierBitmap) ≥ ⌈snapshotCount · quorumBps / 10000⌉`.
For the two other finalization paths only the energy bound survives:
`forceFinalize` deliberately stores `winningVerifierBitmap = 0` (see
`forceFinalize_zero_bitmap_counterexample`) and the baseline-mode shortcut
finalizes a single submission regardless of quorum, but both still
guarantee `verifiedWh ≤ maxSubmittedWh`. -/
theorem finalized_bucket_invariant_amended :
    (∀ (w : World) (pid hid : Nat) (w' : World),
      (∀ vh ∈ w.orc.claimValueHashes (pid, hid),
        (w.orc.valueSubs (pid, hid) vh).energyWh ≤
          (w.orc.buckets (pid, hid)).maxSubmittedEnergyWh) →
      (∀ vh ∈ w.orc.claimValueHashes (pid, hid),
        (w.orc.valueSubs (pid, hid) vh).count ≤
          popcount (w.orc.valueSubs (pid, hid) vh).verifierBitmap) →
      1 ≤ (Registry.getSnapshotCount w (w.orc.buckets (pid, hid)).snapshotId *
            w.orc.quorumBps + 9999) / 10000 →
      Oracle.finalizeProduction w pid hid = .ok w' →
      (w'.orc.buckets (pid, hid)).finalized = true →
      (w'.orc.buckets (pid, hid)).verifiedEnergyWh ≤
        (w'.orc.buckets (pid, hid)).maxSubmittedEnergyWh ∧
      (Registry.getSnapshotCount w (w.orc.buckets (pid, hid)).snapshotId *
          w.orc.quorumBps + 9999) / 10000 ≤
        popcount (w'.orc.buckets (pid, hid)).winningVerifierBitmap) ∧
    (∀ (w : World) (pid hid wh er : Nat) (w' : World),
      Oracle.forceFinalize w pid hid wh er = .ok w' →
      (w'.orc.buckets (pid, hid)).verifiedEnergyWh ≤
        (w'.orc.buckets (pid, hid)).maxSubmittedEnergyWh) ∧
    (∀ (w : World) (pid hid wh er v : Nat) (w' : World),
      Oracle.submitProduction w pid hid wh er v = .ok w' →
      (w'.orc.buckets (pid, hid)).finalized = true →
      (w'.orc.buckets (pid, hid)).verifiedEnergyWh ≤
        (w'.orc.buckets (pid, hid)).maxSubmittedEnergyWh) := by
  refine ⟨?_, ?_, ?_⟩
  · intro w pid hid w' hsub hcnt hq1 hok hfin
    simp only [Oracle.finalizeProduction, Oracle.getClaimKey] at hok
    split at hok
    · exact absurd hok (by simp)
    · split at hok
      · exact absurd hok (by simp)
      · split at hok
        · rw [Except.ok.injEq] at hok
          subst hok
          simp [updFn_same] at hfin
        · rename_i hge
          split at hok
          · exact absurd hok (by simp)
          · rename_i w1 h1
            have horc : w'.orc = w1.orc := by
              split at hok
              · rw [Except.ok.injEq] at hok
                subst hok
                rw [Treasury.recordFaults_orc]
              · rw [Except.ok.injEq] at hok
                subst hok
                rfl
            have hfv := Oracle.finalizeWithValue_ok_orc w (pid, hid) pid hid
              _ _ _ w1 h1
            have hq : (Registry.getSnapshotCount w
                (w.orc.buckets (pid, hid)).snapshotId * w.orc.quorumBps +
                  9999) / 10000 ≤
                (Oracle.selectWinner (w.orc.valueSubs (pid, hid))
                  (w.orc.claimValueHashes (pid, hid)) (0, (0, 0))).1 :=
              not_lt.mp hge
            have hw0 : (Oracle.selectWinner (w.orc.valueSubs (pid, hid))
                (w.orc.claimValueHashes (pid, hid)) (0, (0, 0))).1 ≠ 0 := by
              omega
            rcases Oracle.selectWinner_spec (w.orc.valueSubs (pid, hid))
                (w.orc.claimValueHashes (pid, hid)) (0, (0, 0)) with he | hmem
            · rw [he] at hw0
              exact absurd rfl hw0
            · obtain ⟨hm, hcnteq⟩ := hmem
              rw [horc, hfv.1]
              simp only [updFn_same]
              refine ⟨hsub _ hm, ?_⟩
              calc (Registry.getSnapshotCount w
                    (w.orc.buckets (pid, hid)).snapshotId * w.orc.quorumBps +
                      9999) / 10000
                  ≤ (Oracle.selectWinner (w.orc.valueSubs (pid, hid))
                      (w.orc.claimValueHashes (pid, hid)) (0, (0, 0))).1 := hq
                _ = (w.orc.valueSubs (pid, hid)
                      (Oracle.selectWinner (w.orc.valueSubs (pid, hid))
                        (w.orc.claimValueHashes (pid, hid)) (0, (0, 0))).2).count :=
                    hcnteq.symm
                _ ≤ popcount (w.orc.valueSubs (pid, hid)
                      (Oracle.selectWinner (w.orc.valueSubs (pid, hid))
                        (w.orc.claimValueHashes (pid, hid)) (0, (0, 0))).2).verifierBitmap :=
                    hcnt _ hm
  · intro w pid hid wh er w' hok
    simp only [Oracle.forceFinalize, Oracle.getClaimKey] at hok
    split at hok
    · exact absurd hok (by simp)
    · split at hok
      · exact absurd hok (by simp)
      · split at hok
        · exact absurd hok (by simp)
        · split at hok
          · exact absurd hok (by simp)
          · rename_i hle
            split at hok
            · exact absurd hok (by simp)
            · rw [Except.ok.injEq] at hok
              subst hok
              simp only [updFn_same]
              omega
  · intro w pid hid wh er v w' hok hfin
    simp only [Oracle.submitProduction, Oracle.getClaimKey] at hok
    split at hok
    · exact absurd hok (by simp)
    · split at hok
      · exact absurd hok (by simp)
      · split at hok
        · exact absurd hok (by simp)
        · split at hok
          · exact absurd hok (by simp)
          · rename_i hnf hnp hnv hna
            split at hok
            · exact absurd hok (by simp)
            · rename_i w1 bucket1 hstep
              have hb1 : bucket1.finalized = false := by
                split at hstep
                · split at hstep
                  · exact absurd hstep (by simp)
                  · rw [Except.ok.injEq, Prod.mk.injEq] at hstep
                    rw [← hstep.2]
                    simpa using hnf
                · rw [Except.ok.injEq, Prod.mk.injEq] at hstep
                  rw [← hstep.2]
                  simpa using hnf
              split at hok
              · exact absurd hok (by simp)
              · split at hok
                · exact absurd hok (by simp)
                · rename_i idx hidx
                  split at hok
                  · exact absurd hok (by simp)
                  · split at hok
                    · have hfv := Oracle.finalizeWithValue_ok_orc _ (pid, hid)
                        pid hid _ _ _ w' hok
                      rw [hfv.1]
                      simp only [updFn_same]
                      split <;> omega
                    · rw [Except.ok.injEq] at hok
                      subst hok
                      simp [updFn_same, hb1] at hfin
/-- Disputed claim ready for admin override: deadline passed, evidence
root 77 was submitted, max submitted energy 5000, snapshot of three
verifiers. -/
def forceWorld : World :=
  { emptyWorld with
      reg := { emptyWorld.reg with
        producers := updFn emptyWorld.reg.producers 1 (some ⟨55⟩)
        snapshots := updFn emptyWorld.reg.snapshots 1 ⟨[10, 11, 12], 0⟩ }
      orc := { emptyWorld.orc with
        buckets := updFn emptyWorld.orc.buckets (1, 2)
          { ClaimBucket.empty with
              deadline := 10, snapshotId := 1, disputed := true,
              submissionCount := 3, maxSubmittedEnergyWh := 5000,
              allSubmittersBitmap := 7 }
        submittedEvidenceRoots := updFn emptyWorld.orc.submittedEvidenceRoots
          (1, 2) (updFn (emptyWorld.orc.submittedEvidenceRoots (1, 2)) 77 true) }
      now := 20 }

def forceWorldRes : World :=
  txRun (fun w => Oracle.forceFinalize w 1 2 4000 77) forceWorld

/-- C2 (counterexample to the claim as stated): `forceFinalize` on a
disputed claim succeeds and finalizes the bucket with
`winningVerifierBitmap = 0`, whose popcount 0 is strictly below the quorum
`⌈3 · 6667 / 10000⌉ = 3` — so the popcount half of the invariant fails for
the admin-override path. -/
theorem forceFinalize_zero_bitmap_counterexample :
    errOf (Oracle.forceFinalize forceWorld 1 2 4000 77) = none ∧
    (forceWorldRes.orc.buckets (1, 2)).finalized = true ∧
    (forceWorldRes.orc.buckets (1, 2)).winningVerifierBitmap = 0 ∧
    popcount (forceWorldRes.orc.buckets (1, 2)).winningVerifierBitmap <
      (Registry.getSnapshotCount forceWorldRes
          (forceWorldRes.orc.buckets (1, 2)).snapshotId *
        forceWorldRes.orc.quorumBps + 9999) / 10000 := by
  decide

/-- C2 (witness): the normal-path half of the amended theorem at the
happy-path scenario — the finalized bucket satisfies both
`verifiedWh ≤ maxSubmittedWh` and `popcount(bitmap) ≥ quorum = 3`. -/
theorem finalized_bucket_invariant_amended_witness :
    (happyWorldRes.orc.buckets (1, 2)).verifiedEnergyWh ≤
      (happyWorldRes.orc.buckets (1, 2)).maxSubmittedEnergyWh ∧
    (Registry.getSnapshotCount happyWorld
        (happyWorld.orc.buckets (1, 2)).snapshotId *
      happyWorld.orc.quorumBps + 9999) / 10000 ≤
      popcount (happyWorldRes.orc.buckets (1, 2)).winningVerifierBitmap := by
  exact finalized_bucket_invariant_amended.1 happyWorld 1 2 happyWorldRes
    (by decide) (by decide) (by decide) rfl (by decide)

-- ============ C3 ============

/-- The seventeen distinct verifier addresses of the oversized snapshot. -/
def seventeen : List Nat :=
  [10, 11, 12, 13, 14, 15, 16, 17, 18, 19, 20, 21, 22, 23, 24, 25, 26]

/-- State reached after 17 verifiers were activated (nothing in
`activateVerifier` prevents this) and the first 16 submitted the same
tally: snapshot 1 holds all 17 sorted addresses, the bucket has 16
submissions and bitmap 0xFFFF, and the 17th verifier (address 26, snapshot
index 16) has not submitted yet. -/
def seventeenWorld : World :=
  { emptyWorld with
      reg := { emptyWorld.reg with
        verifiers := fun a =>
          if 10 ≤ a ∧ a ≤ 26 then ⟨1000, 0, true, true⟩
          else ⟨0, 0, false, false⟩
        activeVerifiers := seventeen
        producers := updFn emptyWorld.reg.producers 1 (some ⟨55⟩)
        claimKeyToSnapshotId := updFn emptyWorld.reg.claimKeyToSnapshotId
          (1, 2) 1
        snapshots := updFn emptyWorld.reg.snapshots 1 ⟨seventeen, 0⟩
        nextSnapshotId := 2 }
      orc := { emptyWorld.orc with
        buckets := updFn emptyWorld.orc.buckets (1, 2)
          { ClaimBucket.empty with
              deadline := 100, snapshotId := 1, submissionCount := 16,
              allSubmittersBitmap := 65535, maxSubmittedEnergyWh := 500 }
        hasSubmitted := fun k a => decide (k = (1, 2) ∧ 10 ≤ a ∧ a ≤ 25)
        valueSubs := updFn emptyWorld.orc.valueSubs (1, 2)
          (updFn (emptyWorld.orc.valueSubs (1, 2)) (500, 77)
            ⟨16, 65535, 77, 500⟩)
        claimValueHashes :=
          updFn emptyWorld.orc.claimValueHashes (1, 2) [(500, 77)] }
      now := 50 }

def seventeenWorldRes : World :=
  txRun (fun w => Oracle.submitProduction w 1 2 500 77 26) seventeenWorld

/-- Registry with 16 active verifiers; verifier 27 is staked and
allowlisted but not yet active. -/
def sixteenActiveWorld : World :=
  { emptyWorld with
      reg := { emptyWorld.reg with
        verifiers := fun a =>
          if 10 ≤ a ∧ a ≤ 25 then ⟨1000, 0, true, true⟩
          else if a = 27 then ⟨1000, 0, false, true⟩
          else ⟨0, 0, false, false⟩
        activeVerifiers :=
          [10, 11, 12, 13, 14, 15, 16, 17, 18, 19, 20, 21, 22, 23, 24, 25] } }

/-- C3: evaluation of the code at the failing input.  `activateVerifier`
happily accepts a 17th verifier (first conjuncts), and a submission by the
snapshot's 17th verifier (index 16) is accepted: `submissionCount` rises
to 17 while `uint16(1 << 16) = 0` contributes no bit, so the bitmap stays
0xFFFF with popcount 16 ≠ 17, and `|snapshot| = 17 > 16` — the claimed
invariant `popcount(allSubmittersBitmap) == submissionCount ≤ |snapshot|
≤ 16` is broken by the code. -/
theorem seventeenth_verifier_breaks_bitmap_invariant :
    errOf (Registry.activateVerifier sixteenActiveWorld 27) = none ∧
    (txRun (fun w => Registry.activateVerifier w 27)
        sixteenActiveWorld).reg.activeVerifiers.length = 17 ∧
    (Registry.getSnapshotVerifiers seventeenWorld 1).length = 17 ∧
    errOf (Oracle.submitProduction seventeenWorld 1 2 500 77 26) = none ∧
    (seventeenWorldRes.orc.buckets (1, 2)).submissionCount = 17 ∧
    (seventeenWorldRes.orc.buckets (1, 2)).allSubmittersBitmap = 65535 ∧
    popcount (seventeenWorldRes.orc.buckets (1, 2)).allSubmittersBitmap =
      16 ∧
    ¬popcount (seventeenWorldRes.orc.buckets (1, 2)).allSubmittersBitmap =
      (seventeenWorldRes.orc.buckets (1, 2)).submissionCount := by
  decide

-- ============ C4 ============

/-- Claim with snapshot `[9]` and verifier 9 already recorded as having
submitted; the deadline (100) has not passed at `now = 50`. -/
def duplicateWorld : World :=
  { emptyWorld with
      reg := { emptyWorld.reg with
        verifiers := updFn emptyWorld.reg.verifiers 9 ⟨1000, 0, true, true⟩
        producers := updFn emptyWorld.reg.producers 1 (some ⟨55⟩)
        claimKeyToSnapshotId := updFn emptyWorld.reg.claimKeyToSnapshotId
          (1, 2) 1
        snapshots := updFn emptyWorld.reg.snapshots 1 ⟨[9], 0⟩
        nextSnapshotId := 2 }
      orc := { emptyWorld.orc with
        buckets := updFn emptyWorld.orc.buckets (1, 2)
          { ClaimBucket.empty with
              deadline := 100, snapshotId := 1, submissionCount := 1,
              allSubmittersBitmap := 1, maxSubmittedEnergyWh := 500 }
        hasSubmitted := updFn emptyWorld.orc.hasSubmitted (1, 2)
          (updFn (emptyWorld.orc.hasSubmitted (1, 2)) 9 true) }
      now := 50 }

/-- The same claim after the deadline: `now = 200 > 100`. -/
def lateWorld : World := { duplicateWorld with now := 200 }

/-- C4: evaluation of the code at the failing inputs.  A duplicate
submission and a late submission both revert with their typed errors, and
— because the revert rolls back the whole transaction, including the
completed call into the Treasury — the signer's fault counter is NOT
incremented in the surviving state, even though `Treasury.recordFault`
itself would have incremented it (last conjunct shows the rolled-back
write). -/
theorem submit_fault_rolled_back_on_revert :
    errOf (Oracle.submitProduction duplicateWorld 1 2 500 77 9) =
      some (.DuplicateSubmission (1, 2) 9) ∧
    (txRun (fun w => Oracle.submitProduction w 1 2 500 77 9)
        duplicateWorld).trs.verifierFaults 9 = 0 ∧
    errOf (Oracle.submitProduction lateWorld 1 2 500 77 9) =
      some (.ClaimDeadlinePassed (1, 2)) ∧
    (txRun (fun w => Oracle.submitProduction w 1 2 500 77 9)
        lateWorld).trs.verifierFaults 9 = 0 ∧
    (Treasury.recordFault lateWorld 9 .lateSubmission).trs.verifierFaults 9 =
      1 := by
  decide

end SEARChain
